import Mathlib

/-!
# xLog: a shallow embedding of the logging facade (`xLog.go`)

The Go package keeps three package-level variables (`programInfo`, `loglevel`,
`logger`) and writes log lines through a zap logger onto a lumberjack file sink.
Here the three variables are the first three fields of `State`; the lines handed
to the sink are recorded, in order, in the fourth field `sink`.

Conventions of the embedding.

* Go `int` is modelled by `Int`.  The facade only stores and compares levels,
  it never does arithmetic on them, so no wrap-around can occur.
* Go strings are modelled by Lean strings (sequences of Unicode code points).
  The only byte the code searches for is the ASCII byte `/`, and the only
  slicing is right after that byte, so code-point positions and byte positions
  select the same text.
* Code of the libraries the package imports (zap, lumberjack, `strings`,
  `unicode`, `os`, `time`) is not part of the repository.  What the facade
  needs of it is written out below next to the place that uses it; the
  non-ASCII part of the Unicode lower-case table is a parameter `tbl`, and of
  `Time.Format` the layout elements occurring in the two layout constants are
  modelled.
-/

namespace XLog

/-! ## Constants (`xLog.go` 13-21) -/

/-- Severity constant `LevelDebug = iota` (0). -/
def LevelDebug : Int := 0
/-- Severity constant `LevelInfo` (1). -/
def LevelInfo : Int := 1
/-- Severity constant `LevelWarn` (2). -/
def LevelWarn : Int := 2
/-- Severity constant `LevelError` (3). -/
def LevelError : Int := 3

/-! ## Level utilities (`xLog.go` 112-148) -/

/-- Go `LogLevelToString`: a `switch` over the four constants with a default. -/
def LogLevelToString (level : Int) : String :=
  if level = LevelError then "error"
  else if level = LevelWarn then "warn"
  else if level = LevelInfo then "info"
  else if level = LevelDebug then "debug"
  else "unknown level"

/-- Go `unicode.ToLower` on one rune: runes up to `MaxASCII` are handled by the
range test on `A`..`Z` (adding `'a' - 'A' = 32`); every other rune is looked up
in the case table of the `unicode` package, here the parameter `tbl`. -/
def unicodeToLower (tbl : Char → Char) (r : Char) : Char :=
  if r.toNat ≤ 127 then
    if 'A'.toNat ≤ r.toNat ∧ r.toNat ≤ 'Z'.toNat then Char.ofNat (r.toNat + 32) else r
  else tbl r

/-- Go `strings.ToLower`: every rune of the string mapped by `unicode.ToLower`
(the ASCII fast path of the library computes the same string). -/
def ToLower (tbl : Char → Char) (s : String) : String :=
  String.mk (s.data.map (unicodeToLower tbl))

/-- Go `ParseLogLevel`: a `switch` on the lower-cased name, default `LevelInfo`. -/
def ParseLogLevel (tbl : Char → Char) (levelName : String) : Int :=
  let l := ToLower tbl levelName
  if l = "error" then LevelError
  else if l = "warn" then LevelWarn
  else if l = "info" then LevelInfo
  else if l = "debug" then LevelDebug
  else LevelInfo

/-- Letter by letter: `c` is the letter `n` of the name or its capital. -/
def caseVariantList : List Char → List Char → Bool
  | [], [] => true
  | n :: ns, c :: cs => (c == n || c == Char.ofNat (n.toNat - 32)) && caseVariantList ns cs
  | _, _ => false

/-- The relation the spec calls "case variant": `s` is obtained from the
lower-case ASCII name `name` by turning any subset of its letters into the
corresponding capital (code point minus 32). -/
def isCaseVariant (name s : String) : Bool :=
  caseVariantList name.data s.data

/-- A lower-case ASCII letter. -/
def isLowerLetter (n : Char) : Prop := 97 ≤ n.toNat ∧ n.toNat ≤ 122

instance (n : Char) : Decidable (isLowerLetter n) := by
  unfold isLowerLetter; infer_instance

/-- A stand-in for the non-ASCII part of the Unicode lower-case table, used to
instantiate the theorems: the two non-ASCII runes whose lower case is an ASCII
letter (U+0130 and U+212A, the Kelvin sign) and the identity elsewhere. -/
def sampleTable (r : Char) : Char :=
  if r.toNat = 0x130 then 'i' else if r.toNat = 0x212A then 'k' else r

/-! ## Caller annotation (`xLog.go` 28-40) -/

/-- Loop of Go `strings.LastIndexByte`: scan the positions `i-1, i-2, .., 0` and
return the first position holding `c`, or `-1`. -/
def lastIndexFrom (s : List Char) (c : Char) : Nat → Int
  | 0 => -1
  | i + 1 => if s.get? i = some c then (i : Int) else lastIndexFrom s c i

/-- Go `strings.LastIndexByte(s, c)`: position of the last `c` in `s`, else `-1`. -/
def LastIndexByte (s : String) (c : Char) : Int :=
  lastIndexFrom s.data c s.data.length

/-- Lines 30-36 of `MyCallerEncoder`: the trimming of the caller path. -/
def trimPath (path : String) : String :=
  let index := LastIndexByte path '/'
  if index ≠ -1 then
    let startIndex := index + 1
    if (path.data.length : Int) > startIndex then
      String.mk (path.data.drop startIndex.toNat)
    else path
  else path

/-- Go `MyCallerEncoder`.  `path` is the value of `caller.TrimmedPath()` (line
29; zap's method is `TrimmedPath` below), `enc` the strings appended to the array
encoder so far; the result is the encoder after `enc.AppendString(str)`. -/
def MyCallerEncoder (programInfo : String) (path : String) (enc : List String) :
    List String :=
  let path := trimPath path
  let str := programInfo ++ "[" ++ path ++ "]"
  enc ++ [str]

/-- The text after the final `/` of a path (the whole path when it has none). -/
def afterLastSlash (p : List Char) : List Char :=
  (p.reverse.takeWhile (fun x => x != '/')).reverse

/-- The segment as the spec words it: the substring after the final `/` when the
path contains a `/`, the path itself when it contains none. -/
def specSegment (p : String) : String :=
  if '/' ∈ p.data then String.mk (afterLastSlash p.data) else p

/-- The segment with the guard of line 33 spelled out: the substring after the
final `/` when the path contains a `/` that is not its last character, the path
itself otherwise (no `/`, or the final `/` ends the path). -/
def guardedSegment (p : String) : String :=
  if '/' ∈ p.data ∧ p.data.getLast? ≠ some '/' then String.mk (afterLastSlash p.data)
  else p

/-! ## Process-wide state and the zap logger -/

/-- Values passed in the variadic `args ...interface{}`. -/
inductive Arg where
  | int (n : Int)
  | str (s : String)
  | bool (b : Bool)
  | nil
  deriving DecidableEq, Repr

/-- Levels of `zapcore`: `DebugLevel = -1`, then `InfoLevel`, `WarnLevel`,
`ErrorLevel`. -/
def zapDebugLevel : Int := -1
/-- Level `zapcore.InfoLevel`. -/
def zapInfoLevel : Int := 0
/-- Level `zapcore.WarnLevel`. -/
def zapWarnLevel : Int := 1
/-- Level `zapcore.ErrorLevel`. -/
def zapErrorLevel : Int := 2

/-- What `Init` puts behind the handle `logger`: the lumberjack sink settings
(lines 47-54), which time encoder was chosen (lines 58-67), the level enabler of
the core (line 85) and the caller options (lines 87-88). -/
structure Logger where
  Filename : String
  MaxSize : Int
  MaxAge : Int
  MaxBackups : Int
  Compress : Bool
  LocalTime : Bool
  withTimezone : Bool
  enab : Int
  addCaller : Bool
  callerSkip : Int
  deriving DecidableEq, Repr

/-- One entry handed to the sink of a logger: the file of the sink, the zap
level of the entry, and the template and arguments of the message. -/
structure Entry where
  file : String
  level : Int
  template : String
  args : List Arg
  deriving DecidableEq, Repr

/-- The package-level variables `programInfo`, `loglevel`, `logger`, and the
entries written so far. -/
structure State where
  programInfo : String
  loglevel : Int
  logger : Option Logger
  sink : List Entry
  deriving DecidableEq, Repr

/-- State of the package before any call: Go zero values, nothing written. -/
def State.zero : State :=
  { programInfo := "", loglevel := 0, logger := none, sink := [] }

/-- Methods `Debugf`/`Infof`/`Warnf`/`Errorf` of zap's sugared logger, at level
`lvl`: the entry is dropped unless the core enables the level
(`lvl >= enab`), otherwise exactly one entry is written to the sink. -/
def Logger.logf (lg : Logger) (lvl : Int) (template : String) (args : List Arg)
    (sink : List Entry) : List Entry :=
  if lg.enab ≤ lvl then
    sink ++ [{ file := lg.Filename, level := lvl, template := template, args := args }]
  else sink

/-! ## The facade (`xLog.go` 42-110, 150-196) -/

/-- Go `genProgramInfoStr`: `programInfo = fmt.Sprintf("[%d]", os.Getpid())`; the
process id is the parameter `pid`. -/
def genProgramInfoStr (pid : Int) (s : State) : State :=
  { s with programInfo := "[" ++ toString pid ++ "]" }

/-- Go `Init`.  Builds the logger over a fresh lumberjack sink and a core whose
level enabler is `zapcore.DebugLevel`, with `AddCaller` and `AddCallerSkip(1)`. -/
def Init (pid : Int) (filePath : String) (maxSize maxAge maxBackups : Int)
    (compress : Bool) (level : Int) (openTimeZone : Bool) (s : State) : State :=
  let s := genProgramInfoStr pid s
  let s := { s with loglevel := level }
  let zapLogger : Logger :=
    { Filename := filePath, MaxSize := maxSize, MaxAge := maxAge,
      MaxBackups := maxBackups, Compress := compress, LocalTime := true,
      withTimezone := openTimeZone, enab := zapDebugLevel,
      addCaller := true, callerSkip := 1 }
  { s with logger := some zapLogger }

/-- Go `SetLevel`. -/
def SetLevel (level : Int) (s : State) : State :=
  { s with loglevel := level }

/-- Go `GetLevel`: the returned value and the state after the call. -/
def GetLevel (s : State) : Int × State :=
  (s.loglevel, s)

/-- Go `Debug`. -/
def Debug (format : String) (args : List Arg) (s : State) : State :=
  if s.loglevel > LevelDebug then s
  else match s.logger with
    | none => s
    | some lg => { s with sink := lg.logf zapDebugLevel format args s.sink }

/-- Go `Info`. -/
def Info (format : String) (args : List Arg) (s : State) : State :=
  if s.loglevel > LevelInfo then s
  else match s.logger with
    | none => s
    | some lg => { s with sink := lg.logf zapInfoLevel format args s.sink }

/-- Go `Warn`. -/
def Warn (format : String) (args : List Arg) (s : State) : State :=
  if s.loglevel > LevelWarn then s
  else match s.logger with
    | none => s
    | some lg => { s with sink := lg.logf zapWarnLevel format args s.sink }

/-- Go `Error`. -/
def Error (format : String) (args : List Arg) (s : State) : State :=
  if s.loglevel > LevelError then s
  else match s.logger with
    | none => s
    | some lg => { s with sink := lg.logf zapErrorLevel format args s.sink }

/-- The four emission functions, named by their severity. -/
inductive Severity where
  | debug | info | warn | error
  deriving DecidableEq, Repr

/-- Rank of a severity: the constant the emission function compares with. -/
def Severity.rank : Severity → Int
  | .debug => LevelDebug
  | .info => LevelInfo
  | .warn => LevelWarn
  | .error => LevelError

/-- Zap level of the entries an emission function writes. -/
def Severity.zapLevel : Severity → Int
  | .debug => zapDebugLevel
  | .info => zapInfoLevel
  | .warn => zapWarnLevel
  | .error => zapErrorLevel

/-- The emission function of a severity. -/
def Severity.emit : Severity → String → List Arg → State → State
  | .debug => Debug
  | .info => Info
  | .warn => Warn
  | .error => Error

/-- A facade is initialised when the handle `logger` is present and is a logger
as `Init` builds it, that is, over a core enabling `zapcore.DebugLevel`.  `Init`
is the only assignment to `logger` in the package. -/
def Initialised (s : State) : Prop :=
  s.logger.map Logger.enab = some zapDebugLevel

instance (s : State) : Decidable (Initialised s) := by
  unfold Initialised; infer_instance

/-- The entry an emission call of severity `v` writes through logger `lg`. -/
def entryOf (lg : Logger) (v : Severity) (format : String) (args : List Arg) : Entry :=
  { file := lg.Filename, level := v.zapLevel, template := format, args := args }

/-- One call of the public interface of the package. -/
inductive Call where
  | init (pid : Int) (filePath : String) (maxSize maxAge maxBackups : Int)
      (compress : Bool) (level : Int) (openTimeZone : Bool)
  | setLevel (level : Int)
  | getLevel
  | emit (v : Severity) (format : String) (args : List Arg)
  deriving DecidableEq, Repr

/-- State after one call. -/
def Call.apply : Call → State → State
  | .init pid fp ms ma mb c l tz, s => Init pid fp ms ma mb c l tz s
  | .setLevel l, s => SetLevel l s
  | .getLevel, s => (GetLevel s).2
  | .emit v f x, s => v.emit f x s

/-- State after a sequence of calls made from the zero state. -/
def runCalls (cs : List Call) : State :=
  cs.foldl (fun s c => c.apply s) State.zero

/-- A state used to instantiate the theorems: the zero state after one `Init`
with threshold `LevelDebug`. -/
def sampleState : State :=
  Init 4242 "app.log" 10 0 0 false LevelDebug false State.zero

/-- The defined severities: the four constants `LevelDebug` .. `LevelError`. -/
def isDefinedLevel (n : Int) : Prop :=
  n = LevelDebug ∨ n = LevelInfo ∨ n = LevelWarn ∨ n = LevelError

instance (n : Int) : Decidable (isDefinedLevel n) := by
  unfold isDefinedLevel; infer_instance

/-- The gate as a function of the three things it may depend on: the current
threshold, whether a logger is present, and the severity of the call. -/
def gateOpen (loglevel : Int) (present : Bool) (v : Severity) : Bool :=
  decide (loglevel ≤ v.rank) && present

/-! ## Severity formatter (`xLog.go` 69-76) -/

/-- Method `CapitalString` of `zapcore.Level`: the capital name of the levels
`DebugLevel` .. `FatalLevel`, and `LEVEL(n)` for any other value. -/
def CapitalString (l : Int) : String :=
  if l = zapDebugLevel then "DEBUG"
  else if l = zapInfoLevel then "INFO"
  else if l = zapWarnLevel then "WARN"
  else if l = zapErrorLevel then "ERROR"
  else if l = 3 then "DPANIC"
  else if l = 4 then "PANIC"
  else if l = 5 then "FATAL"
  else "LEVEL(" ++ toString l ++ ")"

/-- The closure `customLevelEncoder` of `Init`: the capital name cut to
`levelStr[0:1]` when it is not empty, put in brackets and appended to the array
encoder `enc`.  The names are ASCII, so the first byte is the first character. -/
def customLevelEncoder (level : Int) (enc : List String) : List String :=
  let levelStr := CapitalString level
  let levelStr := if levelStr.data.length > 0 then String.mk (levelStr.data.take 1)
    else levelStr
  enc ++ ["[" ++ levelStr ++ "]"]

/-! ## Time formatter (`xLog.go` 19-20, 57-67) -/

/-- Layout constant `DatetimeFormat`. -/
def DatetimeFormat : String := "2006-01-02 15:04:05.000"
/-- Layout constant `DatetimeFormatWithTimezone`. -/
def DatetimeFormatWithTimezone : String := "2006-01-02 15:04:05.000 -0700"

/-- A `time.Time` as `Format` reads it: the calendar date and clock in the
location of the value, the nanosecond within the second, and the offset of the
zone in seconds east of UTC. -/
structure Time where
  year : Int
  month : Nat
  day : Nat
  hour : Nat
  minute : Nat
  second : Nat
  nanosecond : Nat
  offset : Int
  deriving DecidableEq, Repr

/-- Ranges the `time` package guarantees for the fields of a time value. -/
def Time.Valid (t : Time) : Prop :=
  1 ≤ t.month ∧ t.month ≤ 12 ∧ 1 ≤ t.day ∧ t.day ≤ 31 ∧ t.hour ≤ 23 ∧
  t.minute ≤ 59 ∧ t.second ≤ 59 ∧ t.nanosecond ≤ 999999999

instance (t : Time) : Decidable t.Valid := by
  unfold Time.Valid; infer_instance

/-- The decimal digit `d` as a character (`'0' + d`). -/
def digitChar (d : Nat) : Char := Char.ofNat (48 + d)

/-- The digit loop of `appendInt` in Go's `time` package: the decimal digits of
`u`, least significant first; the buffer of the loop holds 20 digits. -/
def digitsRev : Nat → Nat → List Char
  | 0, u => [digitChar u]
  | fuel + 1, u =>
    if u ≥ 10 then digitChar (u % 10) :: digitsRev fuel (u / 10) else [digitChar u]

/-- Go `appendInt(b, x, width)`: a minus sign for a negative `x`, then the
decimal digits of its absolute value, padded with zeros on the left to `width`. -/
def appendInt (b : List Char) (x : Int) (width : Nat) : List Char :=
  let sign := if x < 0 then ['-'] else []
  let ds := (digitsRev 19 x.natAbs).reverse
  b ++ sign ++ List.replicate (width - ds.length) '0' ++ ds

/-- The layout elements of the `time` package that the cases modelled in
`nextStdChunk` can produce; `stdOther` stands for every element whose rendering
is not modelled. -/
inductive Std where
  | stdLongYear
  | stdZeroMonth
  | stdZeroDay
  | stdHour
  | stdZeroMinute
  | stdZeroSecond
  | stdFracSecond0 (digits : Nat) (sep : Char)
  | stdNumTZ
  | stdOther
  deriving DecidableEq, Repr

/-- Whether the layout `l` starts with the text `p`. -/
def startsWith (p l : List Char) : Bool := l.take p.length == p

/-- Go `isDigit(s, i)` at the head of the rest of the layout. -/
def headIsDigit (l : List Char) : Bool :=
  match l with
  | [] => false
  | c :: _ => decide ('0'.toNat ≤ c.toNat ∧ c.toNat ≤ '9'.toNat)

/-- Go `nextStdChunk`, scanning from the position after the text `pre` already
passed over: the literal text before the first layout element, the element
(`none` when the layout has no further element) and the layout after it.  The
cases of the switch for the characters `0 1 2 3 4 5 - . ,` are modelled; the
result is `none` when the scan meets one of `J M _ P p Z`, whose cases (month
and weekday names, padded days, AM/PM, zone names) are not modelled. -/
def nextStdChunkAux : List Char → List Char →
    Option (List Char × Option Std × List Char)
  | pre, [] => some (pre, none, [])
  | pre, c :: rest =>
    if c = 'J' ∨ c = 'M' ∨ c = '_' ∨ c = 'P' ∨ c = 'p' ∨ c = 'Z' then none
    else if c = '0' then
      match rest with
      | d :: rest2 =>
        if '1'.toNat ≤ d.toNat ∧ d.toNat ≤ '6'.toNat then
          some (pre,
            some (if d = '1' then Std.stdZeroMonth else if d = '2' then Std.stdZeroDay
              else if d = '4' then Std.stdZeroMinute else if d = '5' then Std.stdZeroSecond
              else Std.stdOther),
            rest2)
        else if startsWith ['0', '2'] rest then some (pre, some Std.stdOther, rest.drop 2)
        else nextStdChunkAux (pre ++ [c]) rest
      | [] => nextStdChunkAux (pre ++ [c]) rest
    else if c = '1' then
      if startsWith ['5'] rest then some (pre, some Std.stdHour, rest.drop 1)
      else some (pre, some Std.stdOther, rest)
    else if c = '2' then
      if startsWith ['0', '0', '6'] rest then some (pre, some Std.stdLongYear, rest.drop 3)
      else some (pre, some Std.stdOther, rest)
    else if c = '3' ∨ c = '4' ∨ c = '5' then some (pre, some Std.stdOther, rest)
    else if c = '-' then
      if startsWith ['0', '7', '0', '0', '0', '0'] rest then
        some (pre, some Std.stdOther, rest.drop 6)
      else if startsWith ['0', '7', ':', '0', '0', ':', '0', '0'] rest then
        some (pre, some Std.stdOther, rest.drop 8)
      else if startsWith ['0', '7', '0', '0'] rest then
        some (pre, some Std.stdNumTZ, rest.drop 4)
      else if startsWith ['0', '7', ':', '0', '0'] rest then
        some (pre, some Std.stdOther, rest.drop 5)
      else if startsWith ['0', '7'] rest then some (pre, some Std.stdOther, rest.drop 2)
      else nextStdChunkAux (pre ++ [c]) rest
    else if c = '.' ∨ c = ',' then
      match rest with
      | ch :: _ =>
        if ch = '0' ∨ ch = '9' then
          let run := rest.takeWhile (fun x => x == ch)
          let after := rest.drop run.length
          if headIsDigit after then nextStdChunkAux (pre ++ [c]) rest
          else if ch = '0' then some (pre, some (Std.stdFracSecond0 run.length c), after)
          else some (pre, some Std.stdOther, after)
        else nextStdChunkAux (pre ++ [c]) rest
      | [] => nextStdChunkAux (pre ++ [c]) rest
    else nextStdChunkAux (pre ++ [c]) rest

/-- Go `nextStdChunk(layout)`. -/
def nextStdChunk (layout : List Char) : Option (List Char × Option Std × List Char) :=
  nextStdChunkAux [] layout

/-- The cases of the switch of Go `appendFormat` for the layout elements of
`Std`: the text appended to `b` for one element (`none` for `stdOther`). -/
def renderStd (t : Time) (b : List Char) : Std → Option (List Char)
  | .stdLongYear => some (appendInt b t.year 4)
  | .stdZeroMonth => some (appendInt b t.month 2)
  | .stdZeroDay => some (appendInt b t.day 2)
  | .stdHour => some (appendInt b t.hour 2)
  | .stdZeroMinute => some (appendInt b t.minute 2)
  | .stdZeroSecond => some (appendInt b t.second 2)
  | .stdFracSecond0 n sep => some (b ++ [sep] ++ (appendInt [] t.nanosecond 9).take n)
  | .stdNumTZ =>
    let zone := Int.tdiv t.offset 60
    let b := if zone < 0 then b ++ ['-'] else b ++ ['+']
    let zone := if zone < 0 then -zone else zone
    let b := appendInt b (Int.tdiv zone 60) 2
    some (appendInt b (Int.tmod zone 60) 2)
  | .stdOther => none

/-- The loop of Go `appendFormat`: while the layout is not empty, take the next
chunk, append its literal text, stop when it holds no element, else append the
rendering of the element and go on with the rest of the layout.  Every round
with an element shortens the layout, so `fuel` above its length is never used up. -/
def appendFormat (t : Time) : Nat → List Char → List Char → Option (List Char)
  | 0, b, layout => if layout = [] then some b else none
  | fuel + 1, b, layout =>
    if layout = [] then some b
    else match nextStdChunk layout with
      | none => none
      | some (pre, none, _) => some (b ++ pre)
      | some (pre, some std, suffix) =>
        match renderStd t (b ++ pre) std with
        | none => none
        | some b2 => appendFormat t fuel b2 suffix

/-- Go `t.Format(layout)`, `none` when the layout leaves the modelled cases. -/
def Format (t : Time) (layout : String) : Option String :=
  (appendFormat t (layout.data.length + 1) [] layout.data).map String.mk

/-- The two closures `customTimeEncoder` of `Init`, chosen by `openTimeZone`:
`enc.AppendString(t.Format(layout))` on the array encoder `enc`. -/
def customTimeEncoder (openTimeZone : Bool) (t : Time) (enc : List String) :
    Option (List String) :=
  if openTimeZone then
    (Format t DatetimeFormatWithTimezone).map (fun str => enc ++ [str])
  else
    (Format t DatetimeFormat).map (fun str => enc ++ [str])

/-- The `k` low decimal digits of `n`, least significant first. -/
def padRev : Nat → Nat → List Char
  | 0, _ => []
  | k + 1, n => digitChar (n % 10) :: padRev k (n / 10)

/-- The number `n` written with exactly `k` decimal digits, zero-padded. -/
def pad (k n : Nat) : List Char := (padRev k n).reverse

/-- The text `YYYY-MM-DD HH:MM:SS.mmm` of a time value: four-digit year,
two-digit month, day, hour (24-hour clock), minute and second, and the
milliseconds of the second on three digits. -/
def specDatetime (t : Time) : String :=
  String.mk (pad 4 t.year.toNat ++ ['-'] ++ pad 2 t.month ++ ['-'] ++ pad 2 t.day ++ [' ']
    ++ pad 2 t.hour ++ [':'] ++ pad 2 t.minute ++ [':'] ++ pad 2 t.second ++ ['.']
    ++ pad 3 (t.nanosecond / 1000000))

/-- The text `±HHMM` of the offset of a time value: the sign (minus for an
offset of a whole minute or more west of UTC), then the hours and the minutes of
the offset on two digits each. -/
def specOffset (t : Time) : String :=
  String.mk ((if t.offset ≤ -60 then ['-'] else ['+'])
    ++ pad 2 (t.offset.natAbs / 3600) ++ pad 2 (t.offset.natAbs / 60 % 60))

/-- Whether the text `s` has the shape `pat`, where `D` in the pattern stands for
one decimal digit, `S` for a sign (`+` or `-`), and any other character for
itself. -/
def matchesPattern : List Char → List Char → Bool
  | [], [] => true
  | p :: ps, c :: cs =>
    (if p = 'D' then decide ('0'.toNat ≤ c.toNat ∧ c.toNat ≤ '9'.toNat)
      else if p = 'S' then decide (c = '+' ∨ c = '-')
      else decide (c = p)) && matchesPattern ps cs
  | _, _ => false

/-- A time value used to instantiate the theorems. -/
def sampleTime : Time :=
  { year := 2026, month := 11, day := 4, hour := 9, minute := 5, second := 7,
    nanosecond := 12345678, offset := -27000 }

/-! ## The caller handed to `MyCallerEncoder` (zap's `EntryCaller`) -/

/-- Struct `zapcore.EntryCaller`, the argument `caller` of `MyCallerEncoder`. -/
structure EntryCaller where
  Defined : Bool
  PC : Nat
  File : String
  Line : Int
  Function : String
  deriving DecidableEq, Repr

/-- The decimal text `AppendInt` writes for the line number: a minus sign for a
negative number, then the digits (exact for every 64-bit `Line`). -/
def lineText (n : Int) : List Char :=
  (if n < 0 then ['-'] else []) ++ (digitsRev 19 n.natAbs).reverse

/-- Method `FullPath` of `EntryCaller`: `undefined` for an undefined caller,
else the file, a colon and the line. -/
def FullPath (ec : EntryCaller) : String :=
  if ec.Defined = false then "undefined"
  else String.mk (ec.File.data ++ [':'] ++ lineText ec.Line)

/-- Method `TrimmedPath` of `EntryCaller`: `undefined` for an undefined caller;
the full path when the file has fewer than two `/`; else the file after its
penultimate `/`, a colon and the line. -/
def TrimmedPath (ec : EntryCaller) : String :=
  if ec.Defined = false then "undefined"
  else
    let idx := LastIndexByte ec.File '/'
    if idx = -1 then FullPath ec
    else
      let idx := LastIndexByte (String.mk (ec.File.data.take idx.toNat)) '/'
      if idx = -1 then FullPath ec
      else String.mk (ec.File.data.drop (idx + 1).toNat ++ [':'] ++ lineText ec.Line)

/-- A caller used to instantiate the theorems. -/
def sampleCaller : EntryCaller :=
  { Defined := true, PC := 0, File := "/home/dev/app/pkg/server.go", Line := 42,
    Function := "pkg.Serve" }

/-! ## Lemmas on the gate -/

theorem initialised_iff (s : State) :
    Initialised s ↔ ∃ lg, s.logger = some lg ∧ lg.enab = zapDebugLevel := by
  unfold Initialised
  cases s.logger <;> simp

theorem emit_logger (v : Severity) (f : String) (x : List Arg) (s : State) :
    (v.emit f x s).logger = s.logger ∧ (v.emit f x s).loglevel = s.loglevel := by
  cases v <;> simp only [Severity.emit, Debug, Info, Warn, Error] <;>
    split <;> try (exact ⟨rfl, rfl⟩)
  all_goals (split <;> exact ⟨rfl, rfl⟩)

theorem emit_suppressed (v : Severity) (f : String) (x : List Arg) (s : State)
    (h : v.rank < s.loglevel) : v.emit f x s = s := by
  cases v <;> simp only [Severity.rank] at h <;>
    simp [Severity.emit, Debug, Info, Warn, Error, h]

theorem emit_absent (v : Severity) (f : String) (x : List Arg) (s : State)
    (h : s.logger = none) : v.emit f x s = s := by
  cases v <;> simp [Severity.emit, Debug, Info, Warn, Error, h]

theorem emit_passed (v : Severity) (f : String) (x : List Arg) (s : State) (lg : Logger)
    (hl : s.logger = some lg) (he : lg.enab = zapDebugLevel) (h : s.loglevel ≤ v.rank) :
    v.emit f x s = { s with sink := s.sink ++ [entryOf lg v f x] } := by
  have h' : ¬ v.rank < s.loglevel := not_lt.mpr h
  cases v <;> simp only [Severity.rank] at h' <;>
    simp [Severity.emit, Debug, Info, Warn, Error, h', hl, Logger.logf, he, entryOf,
      Severity.zapLevel, zapDebugLevel, zapInfoLevel, zapWarnLevel, zapErrorLevel]

theorem Init_initialised (pid : Int) (fp : String) (ms ma mb : Int) (c : Bool) (l : Int)
    (tz : Bool) (s : State) : Initialised (Init pid fp ms ma mb c l tz s) := by
  simp [Initialised, Init]

/-- Every state the package can reach from its zero state either has no logger
or is initialised: the hypothesis `Initialised` of the theorems below is what
"logger present" means on a reachable state. -/
theorem runCalls_logger (cs : List Call) :
    (runCalls cs).logger = none ∨ Initialised (runCalls cs) := by
  unfold runCalls
  induction cs using List.reverseRecOn with
  | nil => left; rfl
  | append_singleton cs c ih =>
    rw [List.foldl_append]
    simp only [List.foldl_cons, List.foldl_nil]
    cases c with
    | init pid fp ms ma mb c l tz => right; exact Init_initialised ..
    | setLevel l => simpa [Call.apply, SetLevel, Initialised] using ih
    | getLevel => simpa [Call.apply, GetLevel] using ih
    | emit v f x =>
      simp only [Call.apply, Initialised, (emit_logger v f x _).1]
      exact ih

/-! ## The level gate: claims C1, C2, C8, C9, C10 -/

/-- C1.  On an initialised facade, for severities `a < b` and `c >= b` among
Debug, Info, Warn, Error: after `SetLevel(b)` the emission function of severity
`a` appends nothing to the sink, and the emission function of severity `c`
appends exactly one entry (the entry of that call) to the sink. -/
theorem C1_gate_threshold (s : State) (a b c : Severity) (fa fc : String)
    (xa xc : List Arg) (hinit : Initialised s) (hab : a.rank < b.rank)
    (hbc : b.rank ≤ c.rank) :
    (a.emit fa xa (SetLevel b.rank s)).sink = (SetLevel b.rank s).sink ∧
    ∃ lg, s.logger = some lg ∧
      (c.emit fc xc (SetLevel b.rank s)).sink
        = (SetLevel b.rank s).sink ++ [entryOf lg c fc xc] := by
  obtain ⟨lg, hl, he⟩ := (initialised_iff s).mp hinit
  constructor
  · rw [emit_suppressed a fa xa (SetLevel b.rank s) hab]
  · refine ⟨lg, hl, ?_⟩
    rw [emit_passed c fc xc (SetLevel b.rank s) lg hl he hbc]

theorem C1_gate_threshold_witness :
    Initialised sampleState ∧ Severity.debug.rank < Severity.warn.rank ∧
    Severity.warn.rank ≤ Severity.error.rank ∧
    ((Severity.debug.emit "d %d" [Arg.int 1] (SetLevel Severity.warn.rank sampleState)).sink
        = (SetLevel Severity.warn.rank sampleState).sink ∧
      ∃ lg, sampleState.logger = some lg ∧
        (Severity.error.emit "e %s" [Arg.str "x"]
            (SetLevel Severity.warn.rank sampleState)).sink
          = (SetLevel Severity.warn.rank sampleState).sink
              ++ [entryOf lg Severity.error "e %s" [Arg.str "x"]]) :=
  ⟨by decide, by decide, by decide,
    C1_gate_threshold sampleState Severity.debug Severity.warn Severity.error
      "d %d" "e %s" [Arg.int 1] [Arg.str "x"] (by decide) (by decide) (by decide)⟩

/-- C2.  In the uninitialised state (logger handle absent), whatever the
threshold, the format string and the arguments, each of `Debug`, `Info`, `Warn`
and `Error` returns the state it was called in: nothing is written and nothing
changes. -/
theorem C2_uninitialised_silent (s : State) (format : String) (args : List Arg)
    (hnil : s.logger = none) :
    Debug format args s = s ∧ Info format args s = s ∧
    Warn format args s = s ∧ Error format args s = s :=
  ⟨emit_absent .debug format args s hnil, emit_absent .info format args s hnil,
   emit_absent .warn format args s hnil, emit_absent .error format args s hnil⟩

theorem C2_uninitialised_silent_witness :
    State.zero.logger = none ∧
    (Debug "%d" [Arg.int 7] State.zero = State.zero ∧
     Info "%d" [Arg.int 7] State.zero = State.zero ∧
     Warn "%d" [Arg.int 7] State.zero = State.zero ∧
     Error "%d" [Arg.int 7] State.zero = State.zero) :=
  ⟨rfl, C2_uninitialised_silent State.zero "%d" [Arg.int 7] rfl⟩

/-- C8.  `SetLevel` stores any integer unchecked, and on an initialised facade an
out-of-range threshold makes the gate constant: after `SetLevel(l)` with
`l > LevelError` none of the four emission functions writes anything, and after
`SetLevel(l)` with `l < LevelDebug` each of the four writes exactly one entry. -/
theorem C8_out_of_range_threshold (s : State) (l : Int) (hinit : Initialised s) :
    (SetLevel l s).loglevel = l ∧
    (LevelError < l → ∀ (v : Severity) (f : String) (x : List Arg),
      (v.emit f x (SetLevel l s)).sink = (SetLevel l s).sink) ∧
    (l < LevelDebug → ∀ (v : Severity) (f : String) (x : List Arg),
      ∃ lg, s.logger = some lg ∧
        (v.emit f x (SetLevel l s)).sink = (SetLevel l s).sink ++ [entryOf lg v f x]) := by
  obtain ⟨lg, hl, he⟩ := (initialised_iff s).mp hinit
  refine ⟨rfl, ?_, ?_⟩
  · intro h v f x
    have hv : v.rank < (SetLevel l s).loglevel := by
      have : v.rank ≤ LevelError := by cases v <;> decide
      exact lt_of_le_of_lt this h
    rw [emit_suppressed v f x _ hv]
  · intro h v f x
    have hv : (SetLevel l s).loglevel ≤ v.rank := by
      have : LevelDebug ≤ v.rank := by cases v <;> decide
      exact le_of_lt (lt_of_lt_of_le h this)
    exact ⟨lg, hl, by rw [emit_passed v f x (SetLevel l s) lg hl he hv]⟩

theorem C8_out_of_range_threshold_witness :
    Initialised sampleState ∧
    (SetLevel 4 sampleState).loglevel = 4 ∧
    (Warn "w" [] (SetLevel 4 sampleState)).sink = (SetLevel 4 sampleState).sink ∧
    (∃ lg, sampleState.logger = some lg ∧
      (Debug "d" [] (SetLevel (-1) sampleState)).sink
        = (SetLevel (-1) sampleState).sink ++ [entryOf lg Severity.debug "d" []]) :=
  ⟨by decide, (C8_out_of_range_threshold sampleState 4 (by decide)).1,
   (C8_out_of_range_threshold sampleState 4 (by decide)).2.1 (by decide) Severity.warn "w" [],
   (C8_out_of_range_threshold sampleState (-1) (by decide)).2.2 (by decide)
      Severity.debug "d" []⟩

/-- C9.  For every integer `l`, `GetLevel` after `SetLevel(l)` returns `l`; a
later `SetLevel(l2)` overrides it completely (the state is the one `SetLevel(l2)`
alone produces, and `GetLevel` returns `l2`); `SetLevel` leaves the logger
handle unchanged. -/
theorem C9_set_get_level (s : State) (l l2 : Int) :
    (GetLevel (SetLevel l s)).1 = l ∧
    (GetLevel (SetLevel l2 (SetLevel l s))).1 = l2 ∧
    SetLevel l2 (SetLevel l s) = SetLevel l2 s ∧
    (SetLevel l s).logger = s.logger :=
  ⟨rfl, rfl, rfl, rfl⟩

/-- C10.  For every argument tuple and every previous state, after `Init` the
threshold returned by `GetLevel` is `level`, the logger handle is present, and a
following call of any severity `v` with rank at least `level` writes exactly one
entry. -/
theorem C10_init_sets_level (pid : Int) (filePath : String)
    (maxSize maxAge maxBackups : Int) (compress : Bool) (level : Int)
    (openTimeZone : Bool) (s : State) (v : Severity) (f : String) (x : List Arg)
    (hv : level ≤ v.rank) :
    (GetLevel (Init pid filePath maxSize maxAge maxBackups compress level openTimeZone s)).1
      = level ∧
    ∃ lg, (Init pid filePath maxSize maxAge maxBackups compress level openTimeZone s).logger
        = some lg ∧
      (v.emit f x (Init pid filePath maxSize maxAge maxBackups compress level
          openTimeZone s)).sink
        = (Init pid filePath maxSize maxAge maxBackups compress level openTimeZone s).sink
            ++ [entryOf lg v f x] := by
  obtain ⟨lg, hl, he⟩ := (initialised_iff _).mp
    (Init_initialised pid filePath maxSize maxAge maxBackups compress level openTimeZone s)
  refine ⟨rfl, lg, hl, ?_⟩
  rw [emit_passed v f x _ lg hl he hv]

theorem C10_init_sets_level_witness :
    LevelWarn ≤ Severity.error.rank ∧
    ((GetLevel (Init 7 "a.log" 1 2 3 true LevelWarn true (SetLevel 9 sampleState))).1
        = LevelWarn ∧
      ∃ lg, (Init 7 "a.log" 1 2 3 true LevelWarn true (SetLevel 9 sampleState)).logger
          = some lg ∧
        (Severity.error.emit "boom" [] (Init 7 "a.log" 1 2 3 true LevelWarn true
            (SetLevel 9 sampleState))).sink
          = (Init 7 "a.log" 1 2 3 true LevelWarn true (SetLevel 9 sampleState)).sink
              ++ [entryOf lg Severity.error "boom" []]) :=
  ⟨by decide, C10_init_sets_level 7 "a.log" 1 2 3 true LevelWarn true
    (SetLevel 9 sampleState) Severity.error "boom" [] (by decide)⟩

/-! ## Lemmas on lower-casing -/

theorem toNat_ofNat_small (n : Nat) (h : n < 55296) : (Char.ofNat n).toNat = n := by
  have hv : n.isValidChar := Or.inl h
  simp only [Char.ofNat, hv, Char.ofNatAux, Char.toNat, dite_true]
  rfl

theorem char_eq_of_toNat (c d : Char) (h : c.toNat = d.toNat) : c = d := by
  rw [← Char.ofNat_toNat c, ← Char.ofNat_toNat d, h]

theorem unicodeToLower_variant (tbl : Char → Char) (n c : Char) (hn : isLowerLetter n)
    (h : c = n ∨ c = Char.ofNat (n.toNat - 32)) : unicodeToLower tbl c = n := by
  obtain ⟨h1, h2⟩ := hn
  have hA : 'A'.toNat = 65 := rfl
  have hZ : 'Z'.toNat = 90 := rfl
  rcases h with h | h
  · subst h
    have h3 : c.toNat ≤ 127 := by omega
    have h4 : ¬ (65 ≤ c.toNat ∧ c.toNat ≤ 90) := by omega
    rw [unicodeToLower, hA, hZ, if_pos h3, if_neg h4]
  · have hc : c.toNat = n.toNat - 32 := by
      rw [h]; exact toNat_ofNat_small _ (by omega)
    have h3 : c.toNat ≤ 127 := by omega
    have h4 : 65 ≤ c.toNat ∧ c.toNat ≤ 90 := by omega
    have h5 : c.toNat + 32 = n.toNat := by omega
    rw [unicodeToLower, hA, hZ, if_pos h3, if_pos h4, h5, Char.ofNat_toNat]

theorem unicodeToLower_eq_letter (tbl : Char → Char)
    (htbl : ∀ r : Char, 127 < r.toNat → 127 < (tbl r).toNat ∨ tbl r = 'i' ∨ tbl r = 'k')
    (n c : Char) (hn : isLowerLetter n) (hi : n ≠ 'i') (hk : n ≠ 'k')
    (h : unicodeToLower tbl c = n) : c = n ∨ c = Char.ofNat (n.toNat - 32) := by
  obtain ⟨h1, h2⟩ := hn
  have hA : 'A'.toNat = 65 := rfl
  have hZ : 'Z'.toNat = 90 := rfl
  unfold unicodeToLower at h
  rw [hA, hZ] at h
  by_cases h3 : c.toNat ≤ 127
  · rw [if_pos h3] at h
    by_cases h4 : 65 ≤ c.toNat ∧ c.toNat ≤ 90
    · rw [if_pos h4] at h
      right
      apply char_eq_of_toNat
      have h5 := congrArg Char.toNat h
      rw [toNat_ofNat_small _ (by omega)] at h5
      rw [toNat_ofNat_small _ (by omega)]
      omega
    · rw [if_neg h4] at h
      exact Or.inl h
  · rw [if_neg h3] at h
    rcases htbl c (by omega) with h6 | h6 | h6
    · rw [h] at h6; omega
    · exact absurd (h.symm.trans h6) hi
    · exact absurd (h.symm.trans h6) hk

theorem map_lower_of_variant (tbl : Char → Char) :
    ∀ (ns cs : List Char), (∀ n ∈ ns, isLowerLetter n) → caseVariantList ns cs = true →
      cs.map (unicodeToLower tbl) = ns
  | [], [], _, _ => rfl
  | [], _ :: _, _, h => by simp [caseVariantList] at h
  | _ :: _, [], _, h => by simp [caseVariantList] at h
  | n :: ns, c :: cs, hl, h => by
    simp only [caseVariantList, Bool.and_eq_true, Bool.or_eq_true, beq_iff_eq] at h
    rw [List.map_cons, unicodeToLower_variant tbl n c (hl n (List.mem_cons_self _ _)) h.1,
      map_lower_of_variant tbl ns cs (fun m hm => hl m (List.mem_cons_of_mem _ hm)) h.2]

theorem variant_of_map_lower (tbl : Char → Char)
    (htbl : ∀ r : Char, 127 < r.toNat → 127 < (tbl r).toNat ∨ tbl r = 'i' ∨ tbl r = 'k') :
    ∀ (ns cs : List Char), (∀ n ∈ ns, isLowerLetter n ∧ n ≠ 'i' ∧ n ≠ 'k') →
      cs.map (unicodeToLower tbl) = ns → caseVariantList ns cs = true
  | [], [], _, _ => rfl
  | [], _ :: _, _, h => by simp at h
  | _ :: _, [], _, h => by simp at h
  | n :: ns, c :: cs, hl, h => by
    rw [List.map_cons, List.cons.injEq] at h
    obtain ⟨hn, hi, hk⟩ := hl n (List.mem_cons_self _ _)
    simp only [caseVariantList, Bool.and_eq_true, Bool.or_eq_true, beq_iff_eq]
    exact ⟨unicodeToLower_eq_letter tbl htbl n c hn hi hk h.1,
      variant_of_map_lower tbl htbl ns cs (fun m hm => hl m (List.mem_cons_of_mem _ hm)) h.2⟩

theorem ToLower_eq_iff (tbl : Char → Char) (s name : String) :
    ToLower tbl s = name ↔ s.data.map (unicodeToLower tbl) = name.data := by
  unfold ToLower
  constructor
  · intro h; rw [← h]
  · intro h; rw [h]

theorem ToLower_of_variant (tbl : Char → Char) (name s : String)
    (hl : ∀ n ∈ name.data, isLowerLetter n) (h : isCaseVariant name s = true) :
    ToLower tbl s = name :=
  (ToLower_eq_iff tbl s name).mpr (map_lower_of_variant tbl name.data s.data hl h)

theorem variant_of_ToLower (tbl : Char → Char)
    (htbl : ∀ r : Char, 127 < r.toNat → 127 < (tbl r).toNat ∨ tbl r = 'i' ∨ tbl r = 'k')
    (name s : String) (hl : ∀ n ∈ name.data, isLowerLetter n ∧ n ≠ 'i' ∧ n ≠ 'k')
    (h : ToLower tbl s = name) : isCaseVariant name s = true :=
  variant_of_map_lower tbl htbl name.data s.data hl ((ToLower_eq_iff tbl s name).mp h)

theorem letters_debug :
    ∀ n ∈ "debug".data, isLowerLetter n ∧ n ≠ 'i' ∧ n ≠ 'k' := by
  decide
theorem letters_warn :
    ∀ n ∈ "warn".data, isLowerLetter n ∧ n ≠ 'i' ∧ n ≠ 'k' := by
  decide
theorem letters_error :
    ∀ n ∈ "error".data, isLowerLetter n ∧ n ≠ 'i' ∧ n ≠ 'k' := by
  decide
theorem letters_info : ∀ n ∈ "info".data, isLowerLetter n := by decide

/-! ## Level names: claims C3, C4, C5, C6 -/

/-- C3.  Round trip: for every defined severity `s` (one of `LevelDebug`,
`LevelInfo`, `LevelWarn`, `LevelError`), `ParseLogLevel(LogLevelToString(s))`
is `s`, whatever the non-ASCII part of the case table. -/
theorem C3_parse_toString_roundtrip (tbl : Char → Char) (s : Int)
    (hs : s = LevelDebug ∨ s = LevelInfo ∨ s = LevelWarn ∨ s = LevelError) :
    ParseLogLevel tbl (LogLevelToString s) = s := by
  rcases hs with h | h | h | h <;> subst h
  · have h1 : ToLower tbl "debug" = "debug" :=
      ToLower_of_variant tbl _ _ (fun n hn => (letters_debug n hn).1) (by decide)
    rw [show LogLevelToString LevelDebug = "debug" from by decide, ParseLogLevel]
    simp only [h1]; decide
  · have h1 : ToLower tbl "info" = "info" :=
      ToLower_of_variant tbl _ _ letters_info (by decide)
    rw [show LogLevelToString LevelInfo = "info" from by decide, ParseLogLevel]
    simp only [h1]; decide
  · have h1 : ToLower tbl "warn" = "warn" :=
      ToLower_of_variant tbl _ _ (fun n hn => (letters_warn n hn).1) (by decide)
    rw [show LogLevelToString LevelWarn = "warn" from by decide, ParseLogLevel]
    simp only [h1]; decide
  · have h1 : ToLower tbl "error" = "error" :=
      ToLower_of_variant tbl _ _ (fun n hn => (letters_error n hn).1) (by decide)
    rw [show LogLevelToString LevelError = "error" from by decide, ParseLogLevel]
    simp only [h1]; decide

theorem C3_parse_toString_roundtrip_witness :
    (LevelWarn = LevelDebug ∨ LevelWarn = LevelInfo ∨ LevelWarn = LevelWarn ∨
      LevelWarn = LevelError) ∧
    ParseLogLevel sampleTable (LogLevelToString LevelWarn) = LevelWarn :=
  ⟨by decide, C3_parse_toString_roundtrip sampleTable LevelWarn (by decide)⟩

/-- C4.  `ParseLogLevel` is case-insensitive: a string obtained from "debug",
"info", "warn" or "error" by changing the case of any subset of its letters is
parsed to the severity of that name. -/
theorem C4_parse_case_insensitive (tbl : Char → Char) (s : String) :
    (isCaseVariant "debug" s = true → ParseLogLevel tbl s = LevelDebug) ∧
    (isCaseVariant "info" s = true → ParseLogLevel tbl s = LevelInfo) ∧
    (isCaseVariant "warn" s = true → ParseLogLevel tbl s = LevelWarn) ∧
    (isCaseVariant "error" s = true → ParseLogLevel tbl s = LevelError) := by
  refine ⟨?_, ?_, ?_, ?_⟩ <;> intro h
  · have h1 := ToLower_of_variant tbl _ s (fun n hn => (letters_debug n hn).1) h
    rw [ParseLogLevel]; simp only [h1]; decide
  · have h1 := ToLower_of_variant tbl _ s letters_info h
    rw [ParseLogLevel]; simp only [h1]; decide
  · have h1 := ToLower_of_variant tbl _ s (fun n hn => (letters_warn n hn).1) h
    rw [ParseLogLevel]; simp only [h1]; decide
  · have h1 := ToLower_of_variant tbl _ s (fun n hn => (letters_error n hn).1) h
    rw [ParseLogLevel]; simp only [h1]; decide

theorem C4_parse_case_insensitive_witness :
    (isCaseVariant "error" "ERROR" = true ∧ ParseLogLevel sampleTable "ERROR" = LevelError) ∧
    (isCaseVariant "error" "Error" = true ∧ ParseLogLevel sampleTable "Error" = LevelError) ∧
    (isCaseVariant "error" "error" = true ∧ ParseLogLevel sampleTable "error" = LevelError) ∧
    (isCaseVariant "debug" "dEbUg" = true ∧ ParseLogLevel sampleTable "dEbUg" = LevelDebug) ∧
    (isCaseVariant "info" "INFo" = true ∧ ParseLogLevel sampleTable "INFo" = LevelInfo) ∧
    (isCaseVariant "warn" "Warn" = true ∧ ParseLogLevel sampleTable "Warn" = LevelWarn) :=
  ⟨⟨by decide, (C4_parse_case_insensitive sampleTable "ERROR").2.2.2 (by decide)⟩,
   ⟨by decide, (C4_parse_case_insensitive sampleTable "Error").2.2.2 (by decide)⟩,
   ⟨by decide, (C4_parse_case_insensitive sampleTable "error").2.2.2 (by decide)⟩,
   ⟨by decide, (C4_parse_case_insensitive sampleTable "dEbUg").1 (by decide)⟩,
   ⟨by decide, (C4_parse_case_insensitive sampleTable "INFo").2.1 (by decide)⟩,
   ⟨by decide, (C4_parse_case_insensitive sampleTable "Warn").2.2.1 (by decide)⟩⟩

/-- C5.  Every string that is not a case variant of "debug", "info", "warn" or
"error" is parsed to `LevelInfo` (the function is total, there is no error
result).  The case table of the `unicode` package enters through `htbl`: the
lower case of a non-ASCII rune is non-ASCII, except for the two runes whose
lower case is `i` or `k`. -/
theorem C5_parse_default_info (tbl : Char → Char)
    (htbl : ∀ r : Char, 127 < r.toNat → 127 < (tbl r).toNat ∨ tbl r = 'i' ∨ tbl r = 'k')
    (s : String)
    (hs : isCaseVariant "debug" s = false ∧ isCaseVariant "info" s = false ∧
      isCaseVariant "warn" s = false ∧ isCaseVariant "error" s = false) :
    ParseLogLevel tbl s = LevelInfo := by
  obtain ⟨hd, _, hw, he⟩ := hs
  have h1 : ToLower tbl s ≠ "error" := fun h => by
    rw [variant_of_ToLower tbl htbl _ s letters_error h] at he; exact Bool.noConfusion he
  have h2 : ToLower tbl s ≠ "warn" := fun h => by
    rw [variant_of_ToLower tbl htbl _ s letters_warn h] at hw; exact Bool.noConfusion hw
  have h3 : ToLower tbl s ≠ "debug" := fun h => by
    rw [variant_of_ToLower tbl htbl _ s letters_debug h] at hd; exact Bool.noConfusion hd
  rw [ParseLogLevel]
  simp only [h1, h2, h3, if_false, ite_self]

theorem sampleTable_nonAscii (r : Char) (h : 127 < r.toNat) :
    127 < (sampleTable r).toNat ∨ sampleTable r = 'i' ∨ sampleTable r = 'k' := by
  unfold sampleTable
  split
  · exact Or.inr (Or.inl rfl)
  · split
    · exact Or.inr (Or.inr rfl)
    · exact Or.inl h

theorem C5_parse_default_info_witness :
    (∀ r : Char, 127 < r.toNat →
      127 < (sampleTable r).toNat ∨ sampleTable r = 'i' ∨ sampleTable r = 'k') ∧
    ((isCaseVariant "debug" "bogus" = false ∧ isCaseVariant "info" "bogus" = false ∧
      isCaseVariant "warn" "bogus" = false ∧ isCaseVariant "error" "bogus" = false) ∧
     ParseLogLevel sampleTable "bogus" = LevelInfo) ∧
    ((isCaseVariant "debug" "" = false ∧ isCaseVariant "info" "" = false ∧
      isCaseVariant "warn" "" = false ∧ isCaseVariant "error" "" = false) ∧
     ParseLogLevel sampleTable "" = LevelInfo) :=
  ⟨sampleTable_nonAscii,
   ⟨by decide, C5_parse_default_info sampleTable sampleTable_nonAscii "bogus" (by decide)⟩,
   ⟨by decide, C5_parse_default_info sampleTable sampleTable_nonAscii "" (by decide)⟩⟩

/-- C6.  `LogLevelToString` is total: it maps `LevelDebug` to "debug",
`LevelInfo` to "info", `LevelWarn` to "warn", `LevelError` to "error", and every
other integer `n` to "unknown level". -/
theorem C6_toString_total (n : Int)
    (hn : n ≠ LevelDebug ∧ n ≠ LevelInfo ∧ n ≠ LevelWarn ∧ n ≠ LevelError) :
    LogLevelToString LevelDebug = "debug" ∧ LogLevelToString LevelInfo = "info" ∧
    LogLevelToString LevelWarn = "warn" ∧ LogLevelToString LevelError = "error" ∧
    LogLevelToString n = "unknown level" := by
  refine ⟨by decide, by decide, by decide, by decide, ?_⟩
  simp only [LogLevelToString, hn.1, hn.2.1, hn.2.2.1, hn.2.2.2, if_false]

theorem C6_toString_total_witness :
    ((-1 : Int) ≠ LevelDebug ∧ (-1 : Int) ≠ LevelInfo ∧ (-1 : Int) ≠ LevelWarn ∧
      (-1 : Int) ≠ LevelError) ∧
    (LogLevelToString LevelDebug = "debug" ∧ LogLevelToString LevelInfo = "info" ∧
     LogLevelToString LevelWarn = "warn" ∧ LogLevelToString LevelError = "error" ∧
     LogLevelToString (-1) = "unknown level") :=
  ⟨by decide, C6_toString_total (-1) (by decide)⟩

/-! ## Lemmas on the caller path -/

theorem lastIndexFrom_absent (s : List Char) (c : Char) (h : c ∉ s) :
    ∀ i, lastIndexFrom s c i = -1
  | 0 => rfl
  | i + 1 => by
    have hne : s.get? i ≠ some c := fun hg => h (List.get?_mem hg)
    rw [lastIndexFrom, if_neg hne, lastIndexFrom_absent s c h i]

theorem lastIndexFrom_split (pre post : List Char) (c : Char) (h : c ∉ post) :
    ∀ k, lastIndexFrom (pre ++ c :: post) c (pre.length + 1 + k) = (pre.length : Int)
  | 0 => by
    have hg : (pre ++ c :: post).get? pre.length = some c := by
      rw [List.get?_eq_getElem?, List.getElem?_append_right (Nat.le_refl _), Nat.sub_self,
        List.getElem?_cons_zero]
    rw [Nat.add_zero, lastIndexFrom, if_pos hg]
  | k + 1 => by
    have hne : (pre ++ c :: post).get? (pre.length + 1 + k) ≠ some c := by
      intro hg
      have h2 : post.get? k = some c := by
        rw [List.get?_eq_getElem?, List.getElem?_append_right (by omega)] at hg
        have h3 : pre.length + 1 + k - pre.length = k + 1 := by omega
        rw [h3, List.getElem?_cons_succ] at hg
        rw [List.get?_eq_getElem?]; exact hg
      exact h (List.get?_mem h2)
    rw [← Nat.add_assoc, lastIndexFrom, if_neg hne, lastIndexFrom_split pre post c h k]

theorem takeWhile_ne_split (c : Char) (l r : List Char) (h : c ∉ l) :
    (l ++ c :: r).takeWhile (fun x => x != c) = l := by
  induction l with
  | nil => simp [List.takeWhile]
  | cons a l ih =>
    have ha : a ≠ c := fun e => h (e ▸ List.mem_cons_self _ _)
    have hl : c ∉ l := fun m => h (List.mem_cons_of_mem _ m)
    have hb : (a != c) = true := by simp [ha]
    rw [List.cons_append, List.takeWhile_cons, hb]
    simp only [if_true, ih hl]

theorem exists_last_split (s : List Char) (c : Char) (h : c ∈ s) :
    ∃ pre post, s = pre ++ c :: post ∧ c ∉ post := by
  obtain ⟨as, bs, he, hn⟩ := List.eq_append_cons_of_mem (List.mem_reverse.mpr h)
  refine ⟨bs.reverse, as.reverse, ?_, fun m => hn (List.mem_reverse.mp m)⟩
  have := congrArg List.reverse he
  simpa using this

theorem trimPath_eq_guardedSegment (p : String) : trimPath p = guardedSegment p := by
  unfold trimPath guardedSegment LastIndexByte
  by_cases hm : '/' ∈ p.data
  · obtain ⟨pre, post, hs, hn⟩ := exists_last_split p.data '/' hm
    have hidx : lastIndexFrom p.data '/' p.data.length = (pre.length : Int) := by
      have hlen : p.data.length = pre.length + 1 + post.length := by
        rw [hs]; simp; omega
      rw [hlen]; rw [hs]; exact lastIndexFrom_split pre post '/' hn post.length
    have hafter : afterLastSlash p.data = post := by
      unfold afterLastSlash
      rw [hs, List.reverse_append, List.reverse_cons, List.append_assoc]
      simp only [List.singleton_append]
      rw [takeWhile_ne_split '/' post.reverse pre.reverse (fun m => hn (List.mem_reverse.mp m)),
        List.reverse_reverse]
    have hdrop : p.data.drop (pre.length + 1) = post := by
      rw [hs]; simp
    simp only [hidx]
    have hne : ((pre.length : Int) ≠ -1) := by omega
    rw [if_pos hne]
    have htn : ((pre.length : Int) + 1).toNat = pre.length + 1 := by omega
    rw [htn, hdrop, hafter]
    cases post with
    | nil =>
      have hlast : p.data.getLast? = some '/' := by rw [hs]; simp
      have hlen : ¬ ((p.data.length : Int) > (pre.length : Int) + 1) := by
        rw [hs]; simp
      rw [if_neg hlen, if_neg (fun hc => hc.2 hlast)]
    | cons a post =>
      have hlast : p.data.getLast? ≠ some '/' := by
        rw [hs]
        intro hc
        have : (a :: post).getLast? = some '/' := by
          simpa [List.getLast?_append, List.getLast?_cons_cons] using hc
        exact hn (List.mem_of_getLast?_eq_some this)
      have hlen : (p.data.length : Int) > (pre.length : Int) + 1 := by
        rw [hs]; simp only [List.length_append, List.length_cons]; push_cast; omega
      rw [if_pos hlen, if_pos ⟨hm, hlast⟩]
  · rw [lastIndexFrom_absent p.data '/' hm]
    simp [hm]

/-! ## Caller annotation: claim C7 -/

theorem lineText_last (n : Int) :
    ∃ d, d < 10 ∧ (lineText n).getLast? = some (digitChar d) := by
  unfold lineText
  have h : ∃ d tl, d < 10 ∧ digitsRev 19 n.natAbs = digitChar d :: tl := by
    rw [digitsRev]
    by_cases h10 : n.natAbs ≥ 10
    · rw [if_pos h10]
      exact ⟨n.natAbs % 10, _, Nat.mod_lt _ (by decide), rfl⟩
    · rw [if_neg h10]
      exact ⟨n.natAbs, [], by omega, rfl⟩
  obtain ⟨d, tl, hd, he⟩ := h
  refine ⟨d, hd, ?_⟩
  rw [he, List.reverse_cons, ← List.append_assoc, List.getLast?_append]
  simp

theorem digitChar_ne_slash (d : Nat) (hd : d < 10) : digitChar d ≠ '/' := by
  have h : ∀ k, k < 10 → digitChar k ≠ '/' := by decide
  exact h d hd

theorem colon_line_last (pre : List Char) (n : Int) :
    (pre ++ [':'] ++ lineText n).getLast? ≠ some '/' := by
  obtain ⟨d, hd, hl⟩ := lineText_last n
  rw [List.getLast?_append, hl]
  intro hc
  have hc2 : some (digitChar d) = some '/' := by simpa using hc
  exact digitChar_ne_slash d hd (Option.some.inj hc2)

/-- The path zap hands over never ends with `/`: it is `undefined` or ends with
the digits of the line number. -/
theorem TrimmedPath_last (ec : EntryCaller) :
    (TrimmedPath ec).data.getLast? ≠ some '/' := by
  unfold TrimmedPath FullPath
  by_cases hd : ec.Defined = false
  · rw [if_pos hd]; decide
  · rw [if_neg hd]
    simp only
    split
    · exact colon_line_last _ _
    · split
      · exact colon_line_last _ _
      · exact colon_line_last _ _

theorem trimPath_eq_specSegment (p : String) (hp : p.data.getLast? ≠ some '/') :
    trimPath p = specSegment p := by
  rw [trimPath_eq_guardedSegment]
  unfold guardedSegment specSegment
  by_cases hm : '/' ∈ p.data
  · rw [if_pos ⟨hm, hp⟩, if_pos hm]
  · rw [if_neg (fun hc => hm hc.1), if_neg hm]

/-- C7.  For every caller, with `p` the caller path `caller.TrimmedPath()`,
`MyCallerEncoder` appends `ProcessTag ++ "[" ++ seg(p) ++ "]"`, where `seg(p)`
is the substring of `p` after its final `/` when `p` contains a `/`, and `p`
itself unmodified when `p` contains no `/`.  The same holds for every string
`p` that does not end with `/`, which every caller path satisfies. -/
theorem C7_caller_encoder_spec_segment (programInfo : String) (caller : EntryCaller)
    (enc : List String) :
    MyCallerEncoder programInfo (TrimmedPath caller) enc
      = enc ++ [programInfo ++ "[" ++ specSegment (TrimmedPath caller) ++ "]"] ∧
    (TrimmedPath caller).data.getLast? ≠ some '/' ∧
    ∀ p : String, p.data.getLast? ≠ some '/' →
      MyCallerEncoder programInfo p enc
        = enc ++ [programInfo ++ "[" ++ specSegment p ++ "]"] := by
  have hall : ∀ p : String, p.data.getLast? ≠ some '/' →
      MyCallerEncoder programInfo p enc
        = enc ++ [programInfo ++ "[" ++ specSegment p ++ "]"] := by
    intro p hp
    unfold MyCallerEncoder
    rw [trimPath_eq_specSegment p hp]
  exact ⟨hall _ (TrimmedPath_last caller), TrimmedPath_last caller, hall⟩

theorem C7_caller_encoder_spec_segment_witness :
    (TrimmedPath sampleCaller = "pkg/server.go:42" ∧
      MyCallerEncoder "[4242]" (TrimmedPath sampleCaller) [] = ["[4242][server.go:42]"]) ∧
    ("a/b/c.ext".data.getLast? ≠ some '/' ∧ specSegment "a/b/c.ext" = "c.ext" ∧
      MyCallerEncoder "[4242]" "a/b/c.ext" []
        = [] ++ ["[4242]" ++ "[" ++ specSegment "a/b/c.ext" ++ "]"]) ∧
    ("c.ext".data.getLast? ≠ some '/' ∧ specSegment "c.ext" = "c.ext" ∧
      MyCallerEncoder "[4242]" "c.ext" []
        = [] ++ ["[4242]" ++ "[" ++ specSegment "c.ext" ++ "]"]) :=
  ⟨⟨by decide,
    (C7_caller_encoder_spec_segment "[4242]" sampleCaller []).1.trans (by decide)⟩,
   ⟨by decide, by decide,
    (C7_caller_encoder_spec_segment "[4242]" sampleCaller []).2.2 "a/b/c.ext" (by decide)⟩,
   ⟨by decide, by decide,
    (C7_caller_encoder_spec_segment "[4242]" sampleCaller []).2.2 "c.ext" (by decide)⟩⟩

/-! ## Parsing after printing: claims C13, C14 -/

theorem ParseLogLevel_cases (tbl : Char → Char) (x : String) :
    isDefinedLevel (ParseLogLevel tbl x) := by
  unfold isDefinedLevel ParseLogLevel
  simp only
  split
  · exact Or.inr (Or.inr (Or.inr rfl))
  · split
    · exact Or.inr (Or.inr (Or.inl rfl))
    · split
      · exact Or.inr (Or.inl rfl)
      · split
        · exact Or.inl rfl
        · exact Or.inr (Or.inl rfl)

theorem ToLower_lower_name (tbl : Char → Char) (name : String)
    (hl : ∀ n ∈ name.data, isLowerLetter n) : ToLower tbl name = name := by
  refine ToLower_of_variant tbl name name hl ?_
  unfold isCaseVariant
  generalize name.data = l
  induction l with
  | nil => rfl
  | cons a l ih => simp [caseVariantList, ih]

theorem parse_of_defined (tbl : Char → Char) (n : Int) (h : isDefinedLevel n) :
    ParseLogLevel tbl (LogLevelToString n) = n := by
  rcases h with h | h | h | h <;> subst h
  · rw [show LogLevelToString LevelDebug = "debug" from by decide, ParseLogLevel]
    simp only [ToLower_lower_name tbl "debug" (fun n hn => (letters_debug n hn).1)]; decide
  · rw [show LogLevelToString LevelInfo = "info" from by decide, ParseLogLevel]
    simp only [ToLower_lower_name tbl "info" letters_info]; decide
  · rw [show LogLevelToString LevelWarn = "warn" from by decide, ParseLogLevel]
    simp only [ToLower_lower_name tbl "warn" (fun n hn => (letters_warn n hn).1)]; decide
  · rw [show LogLevelToString LevelError = "error" from by decide, ParseLogLevel]
    simp only [ToLower_lower_name tbl "error" (fun n hn => (letters_error n hn).1)]; decide

theorem toString_undefined (n : Int) (h : ¬ isDefinedLevel n) :
    LogLevelToString n = "unknown level" := by
  unfold isDefinedLevel at h
  have h1 : n ≠ LevelDebug := fun e => h (Or.inl e)
  have h2 : n ≠ LevelInfo := fun e => h (Or.inr (Or.inl e))
  have h3 : n ≠ LevelWarn := fun e => h (Or.inr (Or.inr (Or.inl e)))
  have h4 : n ≠ LevelError := fun e => h (Or.inr (Or.inr (Or.inr e)))
  simp only [LogLevelToString, h1, h2, h3, h4, if_false]

theorem ToLower_sentinel (tbl : Char → Char) :
    ToLower tbl "unknown level" = "unknown level" := by
  rw [ToLower_eq_iff]
  have hc : ∀ c ∈ "unknown level".data, unicodeToLower tbl c = c := by
    intro c hc
    have h1 : c.toNat ≤ 127 ∧ ¬ ('A'.toNat ≤ c.toNat ∧ c.toNat ≤ 'Z'.toNat) := by
      revert c; decide
    rw [unicodeToLower, if_pos h1.1, if_neg h1.2]
  exact (List.map_congr_left hc).trans (List.map_id _)

theorem parse_sentinel (tbl : Char → Char) :
    ParseLogLevel tbl "unknown level" = LevelInfo := by
  rw [ParseLogLevel]
  simp only [ToLower_sentinel]
  decide

/-- C13.  For every input string `x`, `ParseLogLevel(x)` is a defined severity
(`LevelDebug <= ParseLogLevel(x) <= LevelError`), so
`LogLevelToString(ParseLogLevel(x))` is one of "debug", "info", "warn",
"error" and never "unknown level". -/
theorem C13_parse_yields_defined_level (tbl : Char → Char) (x : String) :
    LevelDebug ≤ ParseLogLevel tbl x ∧ ParseLogLevel tbl x ≤ LevelError ∧
    LogLevelToString (ParseLogLevel tbl x) ∈ ["debug", "info", "warn", "error"] ∧
    LogLevelToString (ParseLogLevel tbl x) ≠ "unknown level" := by
  rcases ParseLogLevel_cases tbl x with h | h | h | h <;> rw [h] <;> decide

/-- C14.  The round trip `ParseLogLevel(LogLevelToString(n)) == n` holds exactly
on the defined severities: for every integer `n` outside the four constants the
result is `LevelInfo`, which differs from `n`.  `LogLevelToString` is injective
on the four defined severities, and the sentinel "unknown level" is parsed to
`LevelInfo`, not back to an undefined level. -/
theorem C14_roundtrip_exactly_on_defined (tbl : Char → Char) (n : Int) :
    (ParseLogLevel tbl (LogLevelToString n) = n ↔ isDefinedLevel n) ∧
    (¬ isDefinedLevel n →
      ParseLogLevel tbl (LogLevelToString n) = LevelInfo ∧ LevelInfo ≠ n) ∧
    (∀ a b : Int, isDefinedLevel a → isDefinedLevel b →
      LogLevelToString a = LogLevelToString b → a = b) ∧
    ParseLogLevel tbl "unknown level" = LevelInfo := by
  have hout : ¬ isDefinedLevel n →
      ParseLogLevel tbl (LogLevelToString n) = LevelInfo ∧ LevelInfo ≠ n := by
    intro h
    refine ⟨by rw [toString_undefined n h, parse_sentinel], ?_⟩
    intro e
    exact h (Or.inr (Or.inl e.symm))
  refine ⟨⟨?_, parse_of_defined tbl n⟩, hout, ?_, parse_sentinel tbl⟩
  · intro h
    by_contra hn
    obtain ⟨h1, h2⟩ := hout hn
    exact h2 (h1.symm.trans h)
  · intro a b ha hb hab
    rw [← parse_of_defined sampleTable a ha, ← parse_of_defined sampleTable b hb, hab]

theorem C14_roundtrip_exactly_on_defined_witness :
    (ParseLogLevel sampleTable (LogLevelToString 7) = 7 ↔ isDefinedLevel 7) ∧
    (¬ isDefinedLevel 7 ∧
      ParseLogLevel sampleTable (LogLevelToString 7) = LevelInfo ∧ LevelInfo ≠ 7) ∧
    (¬ isDefinedLevel (-1) ∧
      ParseLogLevel sampleTable (LogLevelToString (-1)) = LevelInfo ∧ LevelInfo ≠ -1) ∧
    (isDefinedLevel LevelWarn ∧ isDefinedLevel LevelError ∧
      (LogLevelToString LevelWarn = LogLevelToString LevelError → LevelWarn = LevelError)) ∧
    ParseLogLevel sampleTable "unknown level" = LevelInfo :=
  ⟨(C14_roundtrip_exactly_on_defined sampleTable 7).1,
   ⟨by decide, (C14_roundtrip_exactly_on_defined sampleTable 7).2.1 (by decide)⟩,
   ⟨by decide, (C14_roundtrip_exactly_on_defined sampleTable (-1)).2.1 (by decide)⟩,
   ⟨by decide, by decide,
    (C14_roundtrip_exactly_on_defined sampleTable 0).2.2.1 LevelWarn LevelError
      (by decide) (by decide)⟩,
   (C14_roundtrip_exactly_on_defined sampleTable 7).2.2.2⟩

/-! ## Shape of the trimmed path: claim C15 -/

theorem afterLastSlash_split (pre post : List Char) (h : '/' ∉ post) :
    afterLastSlash (pre ++ '/' :: post) = post := by
  unfold afterLastSlash
  rw [List.reverse_append, List.reverse_cons, List.append_assoc]
  simp only [List.singleton_append]
  rw [takeWhile_ne_split '/' post.reverse pre.reverse (fun m => h (List.mem_reverse.mp m)),
    List.reverse_reverse]

/-- The three ways `trimPath` can go: no `/` in the path, a `/` ending the path
(both leave the path as it is), or a final `/` followed by a non-empty text
without `/`, which is the result. -/
theorem trimPath_cases (p : String) :
    ('/' ∉ p.data ∧ trimPath p = p) ∨
    (p.data.getLast? = some '/' ∧ trimPath p = p) ∨
    (∃ pre post, p.data = pre ++ '/' :: post ∧ '/' ∉ post ∧ post ≠ [] ∧
      trimPath p = String.mk post) := by
  rw [trimPath_eq_guardedSegment]
  unfold guardedSegment
  by_cases hm : '/' ∈ p.data
  · by_cases hl : p.data.getLast? = some '/'
    · right; left
      exact ⟨hl, by rw [if_neg (fun hc => hc.2 hl)]⟩
    · right; right
      obtain ⟨pre, post, hs, hn⟩ := exists_last_split p.data '/' hm
      refine ⟨pre, post, hs, hn, ?_, ?_⟩
      · intro he
        apply hl
        rw [hs, he]; simp
      · rw [if_pos ⟨hm, hl⟩]
        have h2 := afterLastSlash_split pre post hn
        rw [← hs] at h2
        rw [h2]
  · left
    exact ⟨hm, by rw [if_neg (fun hc => hm hc.1)]⟩

/-- C15.  The trimming in `MyCallerEncoder` never yields an empty segment from a
non-empty path: for every non-empty path `p` the trimmed text (the text the
encoder puts between the brackets) is a non-empty suffix of `p`; when `p` ends
with `/` the path is left unmodified, so it still contains `/`; in every other
case the trimmed text contains no `/`. -/
theorem C15_trimmed_segment_shape (programInfo p : String) (enc : List String)
    (hp : p ≠ "") :
    MyCallerEncoder programInfo p enc = enc ++ [programInfo ++ "[" ++ trimPath p ++ "]"] ∧
    trimPath p ≠ "" ∧ (trimPath p).data <:+ p.data ∧
    (p.data.getLast? = some '/' → trimPath p = p ∧ '/' ∈ (trimPath p).data) ∧
    (p.data.getLast? ≠ some '/' → '/' ∉ (trimPath p).data) := by
  refine ⟨rfl, ?_⟩
  rcases trimPath_cases p with ⟨hm, ht⟩ | ⟨hl, ht⟩ | ⟨pre, post, hs, hn, hne, ht⟩
  · rw [ht]
    exact ⟨hp, List.suffix_refl _, fun hl => absurd (List.mem_of_getLast?_eq_some hl) hm,
      fun _ => hm⟩
  · rw [ht]
    exact ⟨hp, List.suffix_refl _, fun _ => ⟨rfl, List.mem_of_getLast?_eq_some hl⟩,
      fun h => absurd hl h⟩
  · rw [ht]
    refine ⟨?_, ?_, ?_, fun _ => hn⟩
    · intro he
      exact hne (congrArg String.data he)
    · rw [hs]
      exact ⟨pre ++ ['/'], by simp⟩
    · intro hl
      exfalso
      rw [hs] at hl
      cases post with
      | nil => exact hne rfl
      | cons a post =>
        have h2 : (a :: post).getLast? = some '/' := by
          simpa [List.getLast?_append, List.getLast?_cons_cons] using hl
        exact hn (List.mem_of_getLast?_eq_some h2)

theorem C15_trimmed_segment_shape_witness :
    ("pkg/sub/file.go:12" ≠ "" ∧
      MyCallerEncoder "[4242]" "pkg/sub/file.go:12" [] = ["[4242][file.go:12]"] ∧
      trimPath "pkg/sub/file.go:12" = "file.go:12") ∧
    ("pkg/" ≠ "" ∧ trimPath "pkg/" = "pkg/" ∧ '/' ∈ (trimPath "pkg/").data) ∧
    ("main.go:3" ≠ "" ∧ trimPath "main.go:3" ≠ "" ∧ '/' ∉ (trimPath "main.go:3").data) :=
  ⟨⟨by decide,
    (C15_trimmed_segment_shape "[4242]" "pkg/sub/file.go:12" [] (by decide)).1.trans
      (by decide), by decide⟩,
   ⟨by decide,
    (C15_trimmed_segment_shape "[4242]" "pkg/" [] (by decide)).2.2.2.1 (by decide)⟩,
   ⟨by decide, (C15_trimmed_segment_shape "[4242]" "main.go:3" [] (by decide)).2.1,
    (C15_trimmed_segment_shape "[4242]" "main.go:3" [] (by decide)).2.2.2.2 (by decide)⟩⟩

/-! ## Frame: claim C16 -/

theorem emit_programInfo (v : Severity) (f : String) (x : List Arg) (s : State) :
    (v.emit f x s).programInfo = s.programInfo := by
  cases v <;> simp only [Severity.emit, Debug, Info, Warn, Error] <;>
    split <;> try rfl
  all_goals (split <;> rfl)

theorem emit_count (v : Severity) (f : String) (x : List Arg) (s : State)
    (hs : s.logger = none ∨ Initialised s) :
    (v.emit f x s).sink.length
      = s.sink.length + (if gateOpen s.loglevel s.logger.isSome v = true then 1 else 0) := by
  by_cases hv : s.loglevel ≤ v.rank
  · rcases hs with hn | hi
    · rw [emit_absent v f x s hn]
      simp [gateOpen, hn]
    · obtain ⟨lg, hl, he⟩ := (initialised_iff s).mp hi
      rw [emit_passed v f x s lg hl he hv]
      simp [gateOpen, hl, hv]
  · rw [emit_suppressed v f x s (not_le.mp hv)]
    simp [gateOpen, hv]

/-- C16.  Frame.  For every state and all arguments, `Debug`, `Info`, `Warn`,
`Error` and `GetLevel` leave the threshold and the logger handle unchanged, and
`SetLevel` changes only the threshold.  On a state the package can be in (no
logger, or the logger `Init` builds) the number of entries an emission call
appends, one or none, is a function of the threshold, the presence of the
logger and the severity only: the format string and the arguments play no part. -/
theorem C16_frame_and_gate_outcome (s : State) (v : Severity) (f : String)
    (x : List Arg) (l : Int) :
    ((v.emit f x s).loglevel = s.loglevel ∧ (v.emit f x s).logger = s.logger) ∧
    (GetLevel s).2 = s ∧
    ((SetLevel l s).loglevel = l ∧ (SetLevel l s).logger = s.logger ∧
      (SetLevel l s).programInfo = s.programInfo ∧ (SetLevel l s).sink = s.sink) ∧
    ((s.logger = none ∨ Initialised s) →
      (v.emit f x s).sink.length
          = s.sink.length + (if gateOpen s.loglevel s.logger.isSome v = true then 1 else 0) ∧
      ∀ (s2 : State) (f2 : String) (x2 : List Arg),
        (s2.logger = none ∨ Initialised s2) → s2.loglevel = s.loglevel →
        s2.logger.isSome = s.logger.isSome →
        (v.emit f2 x2 s2).sink.length - s2.sink.length
          = (v.emit f x s).sink.length - s.sink.length) := by
  refine ⟨⟨(emit_logger v f x s).2, (emit_logger v f x s).1⟩, rfl, ⟨rfl, rfl, rfl, rfl⟩, ?_⟩
  intro hs
  refine ⟨emit_count v f x s hs, ?_⟩
  intro s2 f2 x2 hs2 hl hp
  rw [emit_count v f x s hs, emit_count v f2 x2 s2 hs2, hl, hp]
  omega

theorem C16_frame_and_gate_outcome_witness :
    (sampleState.logger = none ∨ Initialised sampleState) ∧
    ((Severity.info.emit "a %d" [Arg.int 1] sampleState).sink.length
        = sampleState.sink.length
          + (if gateOpen sampleState.loglevel sampleState.logger.isSome Severity.info = true
              then 1 else 0)) ∧
    (((SetLevel 0 (Init 1 "b.log" 0 0 0 true 3 true State.zero)).logger = none ∨
        Initialised (SetLevel 0 (Init 1 "b.log" 0 0 0 true 3 true State.zero))) ∧
      (SetLevel 0 (Init 1 "b.log" 0 0 0 true 3 true State.zero)).loglevel
        = sampleState.loglevel ∧
      (SetLevel 0 (Init 1 "b.log" 0 0 0 true 3 true State.zero)).logger.isSome
        = sampleState.logger.isSome ∧
      (Severity.info.emit "other" [] (SetLevel 0 (Init 1 "b.log" 0 0 0 true 3 true
          State.zero))).sink.length
          - (SetLevel 0 (Init 1 "b.log" 0 0 0 true 3 true State.zero)).sink.length
        = (Severity.info.emit "a %d" [Arg.int 1] sampleState).sink.length
          - sampleState.sink.length) :=
  ⟨by decide,
   ((C16_frame_and_gate_outcome sampleState Severity.info "a %d" [Arg.int 1] 0).2.2.2
      (by decide)).1,
   by decide, by decide, by decide,
   ((C16_frame_and_gate_outcome sampleState Severity.info "a %d" [Arg.int 1] 0).2.2.2
      (by decide)).2 (SetLevel 0 (Init 1 "b.log" 0 0 0 true 3 true State.zero)) "other" []
      (by decide) (by decide) (by decide)⟩

/-! ## Severity formatter: claim C11 -/

/-- C11.  The severity formatter renders the first letter of the capital name
of the level in brackets: applied to the level of an entry written by `Debug`
it appends `[D]`, of an entry written by `Info` `[I]`, by `Warn` `[W]` and by
`Error` `[E]`; the capital names of those levels are DEBUG, INFO, WARN, ERROR. -/
theorem C11_level_encoder_letter (lg : Logger) (f : String) (x : List Arg)
    (enc : List String) :
    (CapitalString Severity.debug.zapLevel = "DEBUG" ∧
      CapitalString Severity.info.zapLevel = "INFO" ∧
      CapitalString Severity.warn.zapLevel = "WARN" ∧
      CapitalString Severity.error.zapLevel = "ERROR") ∧
    customLevelEncoder (entryOf lg Severity.debug f x).level enc = enc ++ ["[D]"] ∧
    customLevelEncoder (entryOf lg Severity.info f x).level enc = enc ++ ["[I]"] ∧
    customLevelEncoder (entryOf lg Severity.warn f x).level enc = enc ++ ["[W]"] ∧
    customLevelEncoder (entryOf lg Severity.error f x).level enc = enc ++ ["[E]"] := by
  refine ⟨by decide, ?_, ?_, ?_, ?_⟩
  · have h : customLevelEncoder zapDebugLevel [] = ["[D]"] := by decide
    simp only [entryOf, Severity.zapLevel, customLevelEncoder] at h ⊢
    simpa using h
  · have h : customLevelEncoder zapInfoLevel [] = ["[I]"] := by decide
    simp only [entryOf, Severity.zapLevel, customLevelEncoder] at h ⊢
    simpa using h
  · have h : customLevelEncoder zapWarnLevel [] = ["[W]"] := by decide
    simp only [entryOf, Severity.zapLevel, customLevelEncoder] at h ⊢
    simpa using h
  · have h : customLevelEncoder zapErrorLevel [] = ["[E]"] := by decide
    simp only [entryOf, Severity.zapLevel, customLevelEncoder] at h ⊢
    simpa using h

/-! ## Lemmas on decimal rendering -/

theorem padRev_zero : ∀ k, padRev k 0 = List.replicate k '0'
  | 0 => rfl
  | k + 1 => by
    rw [padRev, Nat.zero_div, padRev_zero k, List.replicate_succ]
    rfl

theorem padRev_length : ∀ k n, (padRev k n).length = k
  | 0, _ => rfl
  | k + 1, n => by rw [padRev, List.length_cons, padRev_length k]

theorem digitsRev_length_pos : ∀ fuel u, 1 ≤ (digitsRev fuel u).length
  | 0, _ => by simp [digitsRev]
  | fuel + 1, u => by
    rw [digitsRev]
    split <;> simp

/-- The digit loop followed by the zero padding writes the `k` low digits. -/
theorem digitsRev_pad : ∀ (fuel k u : Nat), u < 10 ^ k → 1 ≤ k → k ≤ fuel + 1 →
    digitsRev fuel u ++ List.replicate (k - (digitsRev fuel u).length) '0' = padRev k u
  | 0, k, u, hu, hk1, hk2 => by
    have hk : k = 1 := by omega
    subst hk
    have hu2 : u < 10 := by simpa using hu
    simp [digitsRev, padRev, Nat.mod_eq_of_lt hu2]
  | fuel + 1, k, u, hu, hk1, hk2 => by
    obtain ⟨j, rfl⟩ : ∃ j, k = j + 1 := ⟨k - 1, by omega⟩
    rw [digitsRev]
    by_cases h10 : u ≥ 10
    · rw [if_pos h10]
      have hj1 : 1 ≤ j := by
        rcases Nat.eq_zero_or_pos j with h0 | h0
        · subst h0; simp at hu; omega
        · exact h0
      have hu2 : u / 10 < 10 ^ j := by
        rw [Nat.div_lt_iff_lt_mul (by decide)]
        rw [Nat.pow_succ] at hu
        exact hu
      have ih := digitsRev_pad fuel j (u / 10) hu2 hj1 (by omega)
      rw [padRev, List.length_cons, List.cons_append, Nat.add_sub_add_right, ih]
    · rw [if_neg h10]
      have hu2 : u < 10 := by omega
      rw [padRev, Nat.mod_eq_of_lt hu2, Nat.div_eq_of_lt hu2, padRev_zero]
      simp

theorem appendInt_nonneg (b : List Char) (x : Int) (w : Nat) (hx : 0 ≤ x)
    (hw1 : 1 ≤ w) (hw2 : w ≤ 20) (hu : x.natAbs < 10 ^ w) :
    appendInt b x w = b ++ pad w x.natAbs := by
  unfold appendInt pad
  have hs : ¬ x < 0 := not_lt.mpr hx
  simp only [hs, if_false, List.append_nil]
  rw [← digitsRev_pad 19 w x.natAbs hu hw1 (by omega), List.reverse_append,
    List.reverse_replicate, List.length_reverse, List.append_assoc]

theorem appendInt_nat (b : List Char) (n w : Nat) (hw1 : 1 ≤ w) (hw2 : w ≤ 20)
    (hu : n < 10 ^ w) : appendInt b (n : Int) w = b ++ pad w n := by
  have h := appendInt_nonneg b (n : Int) w (Int.ofNat_nonneg n) hw1 hw2 (by simpa using hu)
  simpa using h

/-! ## Lemmas on the layout walk -/

theorem appendFormat_step (t : Time) (fuel : Nat) (b layout pre suffix b2 : List Char)
    (std : Std) (hl : layout ≠ [])
    (hc : nextStdChunk layout = some (pre, some std, suffix))
    (hr : renderStd t (b ++ pre) std = some b2) :
    appendFormat t (fuel + 1) b layout = appendFormat t fuel b2 suffix := by
  rw [appendFormat, if_neg hl, hc]
  simp only [hr]

theorem appendFormat_done (t : Time) (fuel : Nat) (b : List Char) :
    appendFormat t fuel b [] = some b := by
  cases fuel <;> simp [appendFormat]

theorem appendInt_append (b : List Char) (x : Int) (w : Nat) :
    appendInt b x w = b ++ appendInt [] x w := by
  simp [appendInt, List.append_assoc]

/-- The walk of `appendFormat` over the layout `DatetimeFormat`, started with
fuel `n + 7` on the text `b`: six numeric elements and the fraction. -/
theorem appendFormat_datetime (t : Time) (n : Nat) :
    appendFormat t (n + 7) [] DatetimeFormat.data
      = some (appendInt [] t.year 4 ++ ['-'] ++ appendInt [] t.month 2 ++ ['-']
          ++ appendInt [] t.day 2 ++ [' '] ++ appendInt [] t.hour 2 ++ [':']
          ++ appendInt [] t.minute 2 ++ [':'] ++ appendInt [] t.second 2 ++ ['.']
          ++ (appendInt [] t.nanosecond 9).take 3) := by
  refine (appendFormat_step t (n + 6) [] _ [] "-01-02 15:04:05.000".data _
    Std.stdLongYear (by decide) (by decide) rfl).trans ?_
  refine (appendFormat_step t (n + 5) _ _ ['-'] "-02 15:04:05.000".data _
    Std.stdZeroMonth (by decide) (by decide) rfl).trans ?_
  refine (appendFormat_step t (n + 4) _ _ ['-'] " 15:04:05.000".data _
    Std.stdZeroDay (by decide) (by decide) rfl).trans ?_
  refine (appendFormat_step t (n + 3) _ _ [' '] ":04:05.000".data _
    Std.stdHour (by decide) (by decide) rfl).trans ?_
  refine (appendFormat_step t (n + 2) _ _ [':'] ":05.000".data _
    Std.stdZeroMinute (by decide) (by decide) rfl).trans ?_
  refine (appendFormat_step t (n + 1) _ _ [':'] ".000".data _
    Std.stdZeroSecond (by decide) (by decide) rfl).trans ?_
  refine (appendFormat_step t n _ _ [] [] _
    (Std.stdFracSecond0 3 '.') (by decide) (by decide) rfl).trans ?_
  rw [appendFormat_done]
  simp only [List.append_nil, List.nil_append]
  rw [appendInt_append _ (t.second : Int), appendInt_append _ (t.minute : Int),
    appendInt_append _ (t.hour : Int), appendInt_append _ (t.day : Int),
    appendInt_append _ (t.month : Int)]

theorem tdiv_sixty (o : Int) :
    (Int.tdiv o 60 < 0 ↔ o ≤ -60) ∧
    (if Int.tdiv o 60 < 0 then -(Int.tdiv o 60) else Int.tdiv o 60)
      = ((o.natAbs / 60 : Nat) : Int) := by
  rcases Int.natAbs_eq o with h | h
  · have h1 : Int.tdiv o 60 = ((o.natAbs / 60 : Nat) : Int) := by
      rw [Int.ofNat_tdiv, ← h]; rfl
    have h2 : ¬ (((o.natAbs / 60 : Nat) : Int) < 0) := by omega
    rw [h1, if_neg h2]
    exact ⟨⟨fun hc => absurd hc h2, fun hc => by omega⟩, rfl⟩
  · have h1 : Int.tdiv o 60 = -((o.natAbs / 60 : Nat) : Int) := by
      have h3 : Int.tdiv (-(o.natAbs : Int)) 60 = -((o.natAbs / 60 : Nat) : Int) := by
        rw [Int.neg_tdiv, Int.ofNat_tdiv]; rfl
      rw [← h3, ← h]
    rw [h1]
    constructor
    · constructor <;> intro hc <;> omega
    · split <;> omega

theorem numTZ_text (b : List Char) (o : Int) (ho : -360000 < o ∧ o < 360000) :
    appendInt
        (appendInt (if Int.tdiv o 60 < 0 then b ++ ['-'] else b ++ ['+'])
          (Int.tdiv (if Int.tdiv o 60 < 0 then -(Int.tdiv o 60) else Int.tdiv o 60) 60) 2)
        (Int.tmod (if Int.tdiv o 60 < 0 then -(Int.tdiv o 60) else Int.tdiv o 60) 60) 2
      = b ++ ((if o ≤ -60 then ['-'] else ['+']) ++ pad 2 (o.natAbs / 3600)
          ++ pad 2 (o.natAbs / 60 % 60)) := by
  obtain ⟨hs, hz⟩ := tdiv_sixty o
  rw [hz]
  have hd : Int.tdiv ((o.natAbs / 60 : Nat) : Int) 60 = ((o.natAbs / 3600 : Nat) : Int) := by
    have h := Int.ofNat_tdiv (o.natAbs / 60) 60
    rw [Nat.div_div_eq_div_mul] at h
    exact h.symm
  have hm : Int.tmod ((o.natAbs / 60 : Nat) : Int) 60
      = ((o.natAbs / 60 % 60 : Nat) : Int) := by
    exact (Int.ofNat_tmod (o.natAbs / 60) 60).symm
  rw [hd, hm, appendInt_nat _ _ 2 (by decide) (by decide) (by omega),
    appendInt_nat _ _ 2 (by decide) (by decide) (by omega)]
  by_cases hneg : o ≤ -60
  · rw [if_pos (hs.mpr hneg), if_pos hneg]; simp [List.append_assoc]
  · rw [if_neg (fun hc => hneg (hs.mp hc)), if_neg hneg]; simp [List.append_assoc]

/-- The walk of `appendFormat` over `DatetimeFormatWithTimezone`: the text of
`DatetimeFormat`, a space, and the numeric zone element. -/
theorem appendFormat_datetime_tz (t : Time) (n : Nat) :
    appendFormat t (n + 8) [] DatetimeFormatWithTimezone.data
      = renderStd t
          (appendInt [] t.year 4 ++ ['-'] ++ appendInt [] t.month 2 ++ ['-']
            ++ appendInt [] t.day 2 ++ [' '] ++ appendInt [] t.hour 2 ++ [':']
            ++ appendInt [] t.minute 2 ++ [':'] ++ appendInt [] t.second 2 ++ ['.']
            ++ (appendInt [] t.nanosecond 9).take 3 ++ [' '])
          Std.stdNumTZ := by
  refine (appendFormat_step t (n + 7) [] _ [] "-01-02 15:04:05.000 -0700".data _
    Std.stdLongYear (by decide) (by decide) rfl).trans ?_
  refine (appendFormat_step t (n + 6) _ _ ['-'] "-02 15:04:05.000 -0700".data _
    Std.stdZeroMonth (by decide) (by decide) rfl).trans ?_
  refine (appendFormat_step t (n + 5) _ _ ['-'] " 15:04:05.000 -0700".data _
    Std.stdZeroDay (by decide) (by decide) rfl).trans ?_
  refine (appendFormat_step t (n + 4) _ _ [' '] ":04:05.000 -0700".data _
    Std.stdHour (by decide) (by decide) rfl).trans ?_
  refine (appendFormat_step t (n + 3) _ _ [':'] ":05.000 -0700".data _
    Std.stdZeroMinute (by decide) (by decide) rfl).trans ?_
  refine (appendFormat_step t (n + 2) _ _ [':'] ".000 -0700".data _
    Std.stdZeroSecond (by decide) (by decide) rfl).trans ?_
  refine (appendFormat_step t (n + 1) _ _ [] " -0700".data _
    (Std.stdFracSecond0 3 '.') (by decide) (by decide) rfl).trans ?_
  refine (appendFormat_step t n _ _ [' '] []
    (appendInt
      (appendInt
        (if Int.tdiv t.offset 60 < 0 then
          appendInt [] t.year 4 ++ ['-'] ++ appendInt [] t.month 2 ++ ['-']
            ++ appendInt [] t.day 2 ++ [' '] ++ appendInt [] t.hour 2 ++ [':']
            ++ appendInt [] t.minute 2 ++ [':'] ++ appendInt [] t.second 2 ++ ['.']
            ++ (appendInt [] t.nanosecond 9).take 3 ++ [' '] ++ ['-']
        else
          appendInt [] t.year 4 ++ ['-'] ++ appendInt [] t.month 2 ++ ['-']
            ++ appendInt [] t.day 2 ++ [' '] ++ appendInt [] t.hour 2 ++ [':']
            ++ appendInt [] t.minute 2 ++ [':'] ++ appendInt [] t.second 2 ++ ['.']
            ++ (appendInt [] t.nanosecond 9).take 3 ++ [' '] ++ ['+'])
        (Int.tdiv (if Int.tdiv t.offset 60 < 0 then -(Int.tdiv t.offset 60)
          else Int.tdiv t.offset 60) 60) 2)
      (Int.tmod (if Int.tdiv t.offset 60 < 0 then -(Int.tdiv t.offset 60)
        else Int.tdiv t.offset 60) 60) 2)
    Std.stdNumTZ (by decide) (by decide) ?_).trans ?_
  · simp only [renderStd, List.append_nil, List.nil_append]
    rw [appendInt_append _ (t.second : Int), appendInt_append _ (t.minute : Int),
      appendInt_append _ (t.hour : Int), appendInt_append _ (t.day : Int),
      appendInt_append _ (t.month : Int)]
  rw [appendFormat_done t n]
  rfl

theorem take_three_nanos (n : Nat) : (pad 9 n).take 3 = pad 3 (n / 1000000) := by
  have h1 : n / 10 / 10 / 10 / 10 / 10 / 10 / 10 / 10 % 10 = n / 1000000 / 10 / 10 % 10 := by
    omega
  have h2 : n / 10 / 10 / 10 / 10 / 10 / 10 / 10 % 10 = n / 1000000 / 10 % 10 := by omega
  have h3 : n / 10 / 10 / 10 / 10 / 10 / 10 % 10 = n / 1000000 % 10 := by omega
  simp [pad, padRev, h1, h2, h3]

/-- Under the ranges of the fields and a year of at most four digits, the text
`Format` writes for `DatetimeFormat` is the text `YYYY-MM-DD HH:MM:SS.mmm`. -/
theorem datetime_text (t : Time) (hv : t.Valid) (hy : 0 ≤ t.year ∧ t.year ≤ 9999) :
    appendInt [] t.year 4 ++ ['-'] ++ appendInt [] t.month 2 ++ ['-']
        ++ appendInt [] t.day 2 ++ [' '] ++ appendInt [] t.hour 2 ++ [':']
        ++ appendInt [] t.minute 2 ++ [':'] ++ appendInt [] t.second 2 ++ ['.']
        ++ (appendInt [] t.nanosecond 9).take 3
      = (specDatetime t).data := by
  obtain ⟨h1, h2, h3, h4, h5, h6, h7, h8⟩ := hv
  rw [appendInt_nonneg [] t.year 4 hy.1 (by decide) (by decide) (by omega),
    appendInt_nat [] t.month 2 (by decide) (by decide) (by omega),
    appendInt_nat [] t.day 2 (by decide) (by decide) (by omega),
    appendInt_nat [] t.hour 2 (by decide) (by decide) (by omega),
    appendInt_nat [] t.minute 2 (by decide) (by decide) (by omega),
    appendInt_nat [] t.second 2 (by decide) (by decide) (by omega),
    appendInt_nat [] t.nanosecond 9 (by decide) (by decide) (by omega)]
  simp only [List.nil_append, take_three_nanos, specDatetime]
  have hn : t.year.natAbs = t.year.toNat := by omega
  rw [hn]

theorem digitChar_bounds (d : Nat) :
    48 ≤ (digitChar (d % 10)).toNat ∧ (digitChar (d % 10)).toNat ≤ 57 := by
  have h : ∀ k, k < 10 → 48 ≤ (digitChar k).toNat ∧ (digitChar k).toNat ≤ 57 := by
    decide
  exact h _ (Nat.mod_lt _ (by decide))

theorem digitChar_lower (d : Nat) : 48 ≤ (digitChar (d % 10)).toNat :=
  (digitChar_bounds d).1

theorem digitChar_upper (d : Nat) : (digitChar (d % 10)).toNat ≤ 57 :=
  (digitChar_bounds d).2

theorem specDatetime_shape (t : Time) :
    matchesPattern "DDDD-DD-DD DD:DD:DD.DDD".data (specDatetime t).data = true := by
  simp [specDatetime, pad, padRev, matchesPattern, digitChar_lower, digitChar_upper]

theorem specOffset_shape (t : Time) :
    matchesPattern "SDDDD".data (specOffset t).data = true := by
  unfold specOffset
  split <;> simp [pad, padRev, matchesPattern, digitChar_lower, digitChar_upper]

/-! ## Time formatter: claim C12 -/

theorem Format_datetime (t : Time) (hv : t.Valid) (hy : 0 ≤ t.year ∧ t.year ≤ 9999) :
    Format t DatetimeFormat = some (specDatetime t) := by
  unfold Format
  rw [show DatetimeFormat.data.length + 1 = 17 + 7 from rfl, appendFormat_datetime,
    datetime_text t hv hy]
  rfl

theorem Format_datetime_tz (t : Time) (hv : t.Valid) (hy : 0 ≤ t.year ∧ t.year ≤ 9999)
    (ho : -360000 < t.offset ∧ t.offset < 360000) :
    Format t DatetimeFormatWithTimezone
      = some (specDatetime t ++ " " ++ specOffset t) := by
  unfold Format
  rw [show DatetimeFormatWithTimezone.data.length + 1 = 22 + 8 from rfl,
    appendFormat_datetime_tz, datetime_text t hv hy]
  simp only [renderStd]
  rw [numTZ_text _ t.offset ho]
  simp only [Option.map_some', Option.some.injEq]
  apply String.ext
  simp [specOffset, String.data_append, List.append_assoc]

/-- C12, as stated, fails outside four-digit years and four-digit offsets: for
a time in the year 10000 the formatter without time zone writes a five-digit
year, and for a zone 100 hours east of UTC the formatter with time zone writes
a five-digit offset. -/
theorem C12_wide_year_counterexample :
    Time.Valid { sampleTime with year := 10000 } ∧
    customTimeEncoder false { sampleTime with year := 10000 } []
      = some ["10000-11-04 09:05:07.012"] ∧
    matchesPattern "DDDD-DD-DD DD:DD:DD.DDD".data "10000-11-04 09:05:07.012".data = false ∧
    Time.Valid { sampleTime with offset := 360000 } ∧
    customTimeEncoder true { sampleTime with offset := 360000 } []
      = some ["2026-11-04 09:05:07.012 +10000"] ∧
    matchesPattern "SDDDD".data "+10000".data = false := by
  decide

/-- C12, amended.  For every timestamp `t` whose year lies in 0..9999, the time
formatter built with `includeTimezone = false` renders `t` as
`YYYY-MM-DD HH:MM:SS.mmm` (zero-padded, 24-hour clock, three-digit
milliseconds); when moreover the offset of `t` from UTC is less than 100 hours
either way, the one built with `includeTimezone = true` renders exactly that
same text followed by a space and the signed four-digit offset `±HHMM`. -/
theorem C12_time_encoder_text (t : Time) (enc : List String) (hv : t.Valid)
    (hy : 0 ≤ t.year ∧ t.year ≤ 9999) :
    customTimeEncoder false t enc = some (enc ++ [specDatetime t]) ∧
    matchesPattern "DDDD-DD-DD DD:DD:DD.DDD".data (specDatetime t).data = true ∧
    ((-360000 < t.offset ∧ t.offset < 360000) →
      customTimeEncoder true t enc
        = some (enc ++ [specDatetime t ++ " " ++ specOffset t]) ∧
      matchesPattern "SDDDD".data (specOffset t).data = true) := by
  refine ⟨?_, specDatetime_shape t, fun ho => ⟨?_, specOffset_shape t⟩⟩
  · simp [customTimeEncoder, Format_datetime t hv hy]
  · simp [customTimeEncoder, Format_datetime_tz t hv hy ho]

theorem C12_time_encoder_text_witness :
    sampleTime.Valid ∧ (0 ≤ sampleTime.year ∧ sampleTime.year ≤ 9999) ∧
    (-360000 < sampleTime.offset ∧ sampleTime.offset < 360000) ∧
    specDatetime sampleTime = "2026-11-04 09:05:07.012" ∧
    specOffset sampleTime = "-0730" ∧
    customTimeEncoder false sampleTime [] = some ([] ++ [specDatetime sampleTime]) ∧
    customTimeEncoder true sampleTime []
      = some ([] ++ [specDatetime sampleTime ++ " " ++ specOffset sampleTime]) :=
  ⟨by decide, by decide, by decide, by decide, by decide,
   (C12_time_encoder_text sampleTime [] (by decide) (by decide)).1,
   ((C12_time_encoder_text sampleTime [] (by decide) (by decide)).2.2 (by decide)).1⟩

end XLog
